import Mathlib

/-!
# Verification of the Packdeal template-to-artifact pipeline

Shallow embedding of the algorithmic core of the repository:
the EAN-13 helpers of `utils.py` (`calculate_ean13_checksum`,
`normalize_to_ean13`, `render_barcode_svg_text`) and the binding /
sanitizing helpers of `app.py` (`_decode_bytes`, `find_placeholders`,
`_remove_white_background_rects`, `_parse_svg_dimensions`,
`apply_mapping_to_svg`, and the mapping save / load round trip).

Python strings are modelled as `List Char` (or `String` where
convenient), Python floats as exact rationals or as decimal values,
exceptions as `Option` / `Except`.
-/

set_option maxRecDepth 8192

namespace Packdeal

/-! ## EAN-13 helpers (`utils.py`) -/

/-- The running total of the loop in `calculate_ean13_checksum`:
`for i, ch in enumerate(number12): total += (ord(ch)-48) * (1 if i % 2 == 0 else 3)`,
carried with the running index `i`. -/
def ean13SumFrom (i : Nat) : List Char → Nat
  | [] => 0
  | c :: cs => (c.toNat - 48) * (if i % 2 = 0 then 1 else 3) + ean13SumFrom (i + 1) cs

/-- `str(check)` for a digit value: the character `'0' + n`. -/
def digitChar (n : Nat) : Char := Char.ofNat (48 + n)

/-- `''.join(ch for ch in str(value) if ch.isdigit())`. -/
def stripNonDigits (s : List Char) : List Char := s.filter (·.isDigit)

/-- The checksum digit computed by `calculate_ean13_checksum` once the
12-digit guard has passed: `(10 - (total % 10)) % 10`, as a character. -/
def checksumDigitCore (ds : List Char) : Char :=
  digitChar ((10 - (ean13SumFrom 0 ds) % 10) % 10)

/-- `utils.calculate_ean13_checksum`: strips non-digits, requires exactly
12 digits (else `ValueError`, modelled as `none`), returns the checksum
digit as a one-character string. -/
def calculate_ean13_checksum (s : List Char) : Option Char :=
  let ds := stripNonDigits s
  if ds.length = 12 then some (checksumDigitCore ds) else none

/-- `utils.normalize_to_ean13`: strips non-digits; 12 digits get the
computed checksum appended; 13 digits are returned as they are when the
last digit is the checksum of the first 12 and otherwise have the last
digit replaced by the recomputed checksum; every other length yields
`None`.  The inner calls `calculate_ean13_checksum(s)` /
`calculate_ean13_checksum(s[:12])` are made on all-digit strings of
length 12, where that function deterministically returns
`checksumDigitCore`; the connection is proved in
`calculate_checksum_on_digits` below. -/
def normalize_to_ean13 (v : List Char) : Option (List Char) :=
  let s := stripNonDigits v
  if s.length = 12 then some (s ++ [checksumDigitCore s])
  else if s.length = 13 then
    let chk := checksumDigitCore (s.take 12)
    if s.getLast? = some chk then some s
    else some (s.take 12 ++ [chk])
  else none

mutual
/-- A minimal element tree standing for parsed SVG markup: tag,
attribute list, children.  The forest of children is a separate mutual
inductive so that tree recursions stay structural (and therefore reduce
computationally). -/
inductive SvgNode where
  | node (tag : String) (attrs : List (String × String)) (children : SvgForest)
  deriving DecidableEq
/-- A list of sibling `SvgNode`s. -/
inductive SvgForest where
  | nil
  | cons (hd : SvgNode) (tl : SvgForest)
  deriving DecidableEq
end

/-- Tag of an `SvgNode`. -/
def SvgNode.tag : SvgNode → String
  | .node t _ _ => t

/-- Attributes of an `SvgNode`. -/
def SvgNode.attrs : SvgNode → List (String × String)
  | .node _ a _ => a

/-- Children of an `SvgNode`. -/
def SvgNode.children : SvgNode → SvgForest
  | .node _ _ c => c

/-- The children of a forest as a `List`. -/
def SvgForest.toList : SvgForest → List SvgNode
  | .nil => []
  | .cons c cs => c :: cs.toList

/-- The direct children of a node as a `List`. -/
def SvgNode.childList (n : SvgNode) : List SvgNode := n.children.toList

/-- `utils.render_barcode_svg_text`: normalizes the value and raises
`ValueError(f"EAN not normalizable: {ean}")` when normalization returns
`None`; otherwise hands the canonical 13-digit code to the external
`python-barcode` SVG writer, modelled here by the parameter `gen`
(an external collaborator outside this repository). -/
def render_barcode_svg_text (gen : List Char → Except String SvgNode) (v : List Char) :
    Except String SvgNode :=
  match normalize_to_ean13 v with
  | none => .error ("EAN not normalizable: " ++ String.mk v)
  | some c => gen c

/-- `true` on the `error` constructor. -/
def exceptIsErr {ε α : Type} : Except ε α → Bool
  | .error _ => true
  | .ok _ => false

/-! ### Helper lemmas for the EAN-13 claims -/

/-- On a string that is already all digits and has length 12,
`calculate_ean13_checksum` succeeds with the core checksum digit. -/
theorem calculate_checksum_on_digits (s : List Char)
    (hd : ∀ c ∈ s, c.isDigit) (h12 : s.length = 12) :
    calculate_ean13_checksum s = some (checksumDigitCore s) := by
  have hfilter : stripNonDigits s = s := List.filter_eq_self.mpr hd
  simp [calculate_ean13_checksum, hfilter, h12]

theorem filter_idem_digits (v : List Char) :
    stripNonDigits (stripNonDigits v) = stripNonDigits v :=
  List.filter_eq_self.mpr (fun c hc => (List.mem_filter.mp hc).2)

/-- The loop total as a `Finset` sum over positions, offset by the
starting index. -/
theorem ean13SumFrom_eq_sum (k : Nat) (ds : List Char) :
    ean13SumFrom k ds =
      ∑ i ∈ Finset.range ds.length,
        ((ds.getD i '0').toNat - 48) * (if (k + i) % 2 = 0 then 1 else 3) := by
  induction ds generalizing k with
  | nil => simp [ean13SumFrom]
  | cons c cs ih =>
      rw [ean13SumFrom, ih (k + 1)]
      rw [List.length_cons, Finset.sum_range_succ']
      simp only [List.getD_cons_succ, List.getD_cons_zero, Nat.add_zero]
      have harg : ∀ i, k + 1 + i = k + (i + 1) := by omega
      rw [Nat.add_comm]
      congr 1
      refine Finset.sum_congr rfl (fun i _ => ?_)
      rw [harg i]

/-- `normalize_to_ean13` returns `None` exactly when the digit-stripped
input has a length other than 12 or 13. -/
theorem normalize_eq_none_iff (v : List Char) :
    normalize_to_ean13 v = none ↔
      ¬((stripNonDigits v).length = 12 ∨ (stripNonDigits v).length = 13) := by
  by_cases h12 : (stripNonDigits v).length = 12
  · simp [normalize_to_ean13, h12]
  · by_cases h13 : (stripNonDigits v).length = 13
    · by_cases hok : (stripNonDigits v).getLast? =
          some (checksumDigitCore ((stripNonDigits v).take 12))
      · simp [normalize_to_ean13, h12, h13, hok]
      · simp [normalize_to_ean13, h12, h13, hok]
    · simp [normalize_to_ean13, h12, h13]

/-! ### Claim theorems C1 - C3 -/

/-- C1: for a digit-stripped form of exactly 12 digits the encoder's
normalization appends the computed checksum; for exactly 13 digits it
returns the digits unchanged when the final digit equals the checksum of
the first 12 and otherwise the first 12 digits with the corrected
checksum appended; every emitted code is a 13-digit string whose last
digit is the checksum of its first 12 digits, and normalizing an
already-valid 13-digit code is the identity. -/
theorem normalize_to_ean13_spec (s : List Char) :
    ((stripNonDigits s).length = 12 →
      normalize_to_ean13 s =
        some (stripNonDigits s ++ [checksumDigitCore (stripNonDigits s)])) ∧
    ((stripNonDigits s).length = 13 →
      (stripNonDigits s).getLast? =
          some (checksumDigitCore ((stripNonDigits s).take 12)) →
      normalize_to_ean13 s = some (stripNonDigits s)) ∧
    ((stripNonDigits s).length = 13 →
      (stripNonDigits s).getLast? ≠
          some (checksumDigitCore ((stripNonDigits s).take 12)) →
      normalize_to_ean13 s =
        some ((stripNonDigits s).take 12 ++
          [checksumDigitCore ((stripNonDigits s).take 12)])) ∧
    (∀ r, normalize_to_ean13 s = some r →
      r.length = 13 ∧ r.getLast? = some (checksumDigitCore (r.take 12))) ∧
    ((∀ c ∈ s, c.isDigit) → s.length = 13 →
      s.getLast? = some (checksumDigitCore (s.take 12)) →
      normalize_to_ean13 s = some s) := by
  refine ⟨?h12, ?hval, ?hinv, ?hsound, ?hid⟩
  case h12 =>
    intro h
    simp [normalize_to_ean13, h]
  case hval =>
    intro h13 hok
    simp [normalize_to_ean13, h13, hok]
  case hinv =>
    intro h13 hbad
    simp [normalize_to_ean13, h13, hbad]
  case hsound =>
    intro r hr
    by_cases h12 : (stripNonDigits s).length = 12
    · simp only [normalize_to_ean13] at hr
      rw [if_pos h12, Option.some.injEq] at hr
      subst hr
      refine ⟨by simp [h12], ?_⟩
      have htake := List.take_left (stripNonDigits s)
        [checksumDigitCore (stripNonDigits s)]
      rw [h12] at htake
      rw [htake, List.getLast?_concat]
    · by_cases h13 : (stripNonDigits s).length = 13
      · by_cases hok : (stripNonDigits s).getLast? =
            some (checksumDigitCore ((stripNonDigits s).take 12))
        · simp only [normalize_to_ean13] at hr
          rw [if_neg h12, if_pos h13, if_pos hok, Option.some.injEq] at hr
          subst hr
          exact ⟨h13, hok⟩
        · simp only [normalize_to_ean13] at hr
          rw [if_neg h12, if_pos h13, if_neg hok, Option.some.injEq] at hr
          subst hr
          have hlen12 : ((stripNonDigits s).take 12).length = 12 := by
            simp [List.length_take, h13]
          refine ⟨by simp [hlen12], ?_⟩
          have htake := List.take_left ((stripNonDigits s).take 12)
            [checksumDigitCore ((stripNonDigits s).take 12)]
          rw [hlen12] at htake
          rw [htake, List.getLast?_concat]
      · simp [normalize_to_ean13, h12, h13] at hr
  case hid =>
    intro hd h13 hok
    have hs : stripNonDigits s = s := List.filter_eq_self.mpr hd
    have h12 : ¬ (stripNonDigits s).length = 12 := by rw [hs, h13]; omega
    have h13' : (stripNonDigits s).length = 13 := by rw [hs, h13]
    have hok' : (stripNonDigits s).getLast? =
        some (checksumDigitCore ((stripNonDigits s).take 12)) := by rw [hs]; exact hok
    simp only [normalize_to_ean13]
    rw [if_neg h12, if_pos h13', if_pos hok', hs]

/-- Witness for C1 at the valid 13-digit code `4006381333931`. -/
theorem normalize_to_ean13_spec_witness :
    normalize_to_ean13 "4006381333931".data = some "4006381333931".data :=
  (normalize_to_ean13_spec "4006381333931".data).2.2.2.2
    (by decide) (by decide) (by decide)

/-- C2: on a 12-digit string the computed checksum digit is
`(10 - (S mod 10)) mod 10` where `S` sums digit i times weight 1 (even
position) or 3 (odd position). -/
theorem calculate_ean13_checksum_spec (s : List Char)
    (hd : ∀ c ∈ s, c.isDigit) (h12 : s.length = 12) :
    calculate_ean13_checksum s =
      some (digitChar ((10 -
        (∑ i ∈ Finset.range 12,
          ((s.getD i '0').toNat - 48) * (if i % 2 = 0 then 1 else 3)) % 10) % 10)) := by
  rw [calculate_checksum_on_digits s hd h12]
  unfold checksumDigitCore
  rw [ean13SumFrom_eq_sum 0 s, h12]
  norm_num

/-- Witness for C2 at `123456789012`. -/
theorem calculate_ean13_checksum_spec_witness :
    calculate_ean13_checksum "123456789012".data =
      some (digitChar ((10 -
        (∑ i ∈ Finset.range 12,
          (("123456789012".data.getD i '0').toNat - 48) *
            (if i % 2 = 0 then 1 else 3)) % 10) % 10)) :=
  calculate_ean13_checksum_spec "123456789012".data (by decide) (by decide)

/-- C3: provided the external SVG writer never fails on a canonical
code, the barcode encoder fails exactly when the digit-stripped input
has a digit count other than 12 or 13. -/
theorem render_barcode_failure_iff (gen : List Char → Except String SvgNode)
    (v : List Char) (hgen : ∀ c, exceptIsErr (gen c) = false) :
    exceptIsErr (render_barcode_svg_text gen v) = true ↔
      ¬((stripNonDigits v).length = 12 ∨ (stripNonDigits v).length = 13) := by
  unfold render_barcode_svg_text
  cases hn : normalize_to_ean13 v with
  | none =>
      simpa [exceptIsErr] using (normalize_eq_none_iff v).mp hn
  | some c =>
      have : ¬ normalize_to_ean13 v = none := by simp [hn]
      have hlen := (not_iff_not.mpr (normalize_eq_none_iff v)).mp this
      simp [hgen c, hlen]

/-- Witness for C3: a 5-digit input fails even under a total writer. -/
theorem render_barcode_failure_iff_witness :
    exceptIsErr (render_barcode_svg_text
      (fun _ => .ok (SvgNode.node "svg" [] .nil)) "12345".data) = true :=
  (render_barcode_failure_iff (fun _ => .ok (SvgNode.node "svg" [] .nil))
    "12345".data (fun _ => rfl)).mpr (by decide)

/-! ## Byte decoding (`app.py` `_decode_bytes`) -/

/-- A byte. -/
abbrev Byte := Fin 256

/-- Is a UTF-8 continuation byte (`0x80..0xBF`). -/
def isContByte (b : Byte) : Bool := 0x80 ≤ b.val && b.val ≤ 0xBF

/-- Second-byte admissibility for a 3-byte sequence (no overlongs, no
surrogates). -/
def utf8Second3 (n : Nat) (b2 : Byte) : Bool :=
  if n = 0xE0 then 0xA0 ≤ b2.val && b2.val ≤ 0xBF
  else if n = 0xED then 0x80 ≤ b2.val && b2.val ≤ 0x9F
  else isContByte b2

/-- Second-byte admissibility for a 4-byte sequence (no overlongs,
nothing above `0x10FFFF`). -/
def utf8Second4 (n : Nat) (b2 : Byte) : Bool :=
  if n = 0xF0 then 0x90 ≤ b2.val && b2.val ≤ 0xBF
  else if n = 0xF4 then 0x80 ≤ b2.val && b2.val ≤ 0x8F
  else isContByte b2

/-- Continuation of a 2-byte UTF-8 sequence with lead value `n`. -/
def utf8Cont2 (n : Nat) (rest : List Byte) : Option (Char × List Byte) :=
  match rest with
  | b2 :: r =>
      if isContByte b2 then
        some (Char.ofNat ((n - 0xC0) * 64 + (b2.val - 0x80)), r)
      else none
  | [] => none

/-- Continuation of a 3-byte UTF-8 sequence with lead value `n`. -/
def utf8Cont3 (n : Nat) (rest : List Byte) : Option (Char × List Byte) :=
  match rest with
  | b2 :: b3 :: r =>
      if utf8Second3 n b2 && isContByte b3 then
        some (Char.ofNat ((n - 0xE0) * 4096 + (b2.val - 0x80) * 64 + (b3.val - 0x80)), r)
      else none
  | _ => none

/-- Continuation of a 4-byte UTF-8 sequence with lead value `n`. -/
def utf8Cont4 (n : Nat) (rest : List Byte) : Option (Char × List Byte) :=
  match rest with
  | b2 :: b3 :: b4 :: r =>
      if utf8Second4 n b2 && isContByte b3 && isContByte b4 then
        some (Char.ofNat ((n - 0xF0) * 262144 + (b2.val - 0x80) * 4096 +
          (b3.val - 0x80) * 64 + (b4.val - 0x80)), r)
      else none
  | _ => none

/-- Decode one UTF-8 scalar from a leading byte and the remaining input,
with Python's strictness: continuation bytes, overlong forms, surrogates
and values above `0x10FFFF` are rejected. -/
def utf8Step (b : Byte) (rest : List Byte) : Option (Char × List Byte) :=
  if b.val < 0x80 then some (Char.ofNat b.val, rest)
  else if b.val < 0xC2 then none
  else if b.val < 0xE0 then utf8Cont2 b.val rest
  else if b.val < 0xF0 then utf8Cont3 b.val rest
  else if b.val ≤ 0xF4 then utf8Cont4 b.val rest
  else none

theorem utf8Cont2_length {n : Nat} {rest r : List Byte} {c : Char}
    (h : utf8Cont2 n rest = some (c, r)) : r.length ≤ rest.length := by
  unfold utf8Cont2 at h
  repeat' split at h
  all_goals (try exact Option.noConfusion h)
  injection h with h'
  injection h' with hc hr
  subst hr
  simp

theorem utf8Cont3_length {n : Nat} {rest r : List Byte} {c : Char}
    (h : utf8Cont3 n rest = some (c, r)) : r.length ≤ rest.length := by
  unfold utf8Cont3 at h
  repeat' split at h
  all_goals (try exact Option.noConfusion h)
  injection h with h'
  injection h' with hc hr
  subst hr
  simp
  omega

theorem utf8Cont4_length {n : Nat} {rest r : List Byte} {c : Char}
    (h : utf8Cont4 n rest = some (c, r)) : r.length ≤ rest.length := by
  unfold utf8Cont4 at h
  repeat' split at h
  all_goals (try exact Option.noConfusion h)
  injection h with h'
  injection h' with hc hr
  subst hr
  simp
  omega

theorem utf8Step_length {b : Byte} {rest r : List Byte} {c : Char}
    (h : utf8Step b rest = some (c, r)) : r.length ≤ rest.length := by
  unfold utf8Step at h
  repeat' split at h
  all_goals first
    | exact Option.noConfusion h
    | (injection h with h'
       injection h' with hc hr
       subst hr
       exact Nat.le_refl _)
    | exact utf8Cont2_length h
    | exact utf8Cont3_length h
    | exact utf8Cont4_length h

/-- Strict UTF-8 decoding of a whole byte string (`bytes.decode("utf-8")`),
`none` on the first invalid sequence. -/
def utf8Decode (l : List Byte) : Option (List Char) :=
  match l with
  | [] => some []
  | b :: rest =>
    match h : utf8Step b rest with
    | none => none
    | some (c, rest') => (utf8Decode rest').map (c :: ·)
termination_by l.length
decreasing_by
  have := utf8Step_length h
  simp
  omega

/-- `bytes.decode("utf-8-sig")`: strip the UTF-8 byte-order mark when
present, then strict UTF-8. -/
def utf8SigDecode (l : List Byte) : Option (List Char) :=
  match l with
  | 0xEF :: 0xBB :: 0xBF :: rest => utf8Decode rest
  | _ => utf8Decode l

/-- `bytes.decode("latin-1")`: every byte maps to the character with the
same code point; total. -/
def latin1Decode (l : List Byte) : List Char :=
  l.map (fun b => Char.ofNat b.val)

/-- The Windows-1252 mapping of a byte; the five unassigned bytes
(0x81, 0x8D, 0x8F, 0x90, 0x9D) fail. -/
def cp1252Byte (b : Byte) : Option Char :=
  let n := b.val
  if n < 0x80 || n > 0x9F then some (Char.ofNat n)
  else match n with
    | 0x80 => some (Char.ofNat 0x20AC)
    | 0x82 => some (Char.ofNat 0x201A)
    | 0x83 => some (Char.ofNat 0x0192)
    | 0x84 => some (Char.ofNat 0x201E)
    | 0x85 => some (Char.ofNat 0x2026)
    | 0x86 => some (Char.ofNat 0x2020)
    | 0x87 => some (Char.ofNat 0x2021)
    | 0x88 => some (Char.ofNat 0x02C6)
    | 0x89 => some (Char.ofNat 0x2030)
    | 0x8A => some (Char.ofNat 0x0160)
    | 0x8B => some (Char.ofNat 0x2039)
    | 0x8C => some (Char.ofNat 0x0152)
    | 0x8E => some (Char.ofNat 0x017D)
    | 0x91 => some (Char.ofNat 0x2018)
    | 0x92 => some (Char.ofNat 0x2019)
    | 0x93 => some (Char.ofNat 0x201C)
    | 0x94 => some (Char.ofNat 0x201D)
    | 0x95 => some (Char.ofNat 0x2022)
    | 0x96 => some (Char.ofNat 0x2013)
    | 0x97 => some (Char.ofNat 0x2014)
    | 0x98 => some (Char.ofNat 0x02DC)
    | 0x99 => some (Char.ofNat 0x2122)
    | 0x9A => some (Char.ofNat 0x0161)
    | 0x9B => some (Char.ofNat 0x203A)
    | 0x9C => some (Char.ofNat 0x0153)
    | 0x9E => some (Char.ofNat 0x017E)
    | 0x9F => some (Char.ofNat 0x0178)
    | _ => none

/-- `bytes.decode("cp1252")`, failing on the unassigned bytes. -/
def cp1252Decode (l : List Byte) : Option (List Char) :=
  l.mapM cp1252Byte

/-- `bytes.decode("utf-8", errors="ignore")`: drop the byte at the first
position of each invalid sequence and continue; total. -/
def utf8IgnoreDecode (l : List Byte) : List Char :=
  match l with
  | [] => []
  | b :: rest =>
    match h : utf8Step b rest with
    | none => utf8IgnoreDecode rest
    | some (c, rest') => c :: utf8IgnoreDecode rest'
termination_by l.length
decreasing_by
  · simp
  · have := utf8Step_length h
    simp
    omega

/-- The `for enc in ("utf-8", "utf-8-sig", "latin-1", "cp1252")` loop of
`_decode_bytes`: attempts in order, first success wins. -/
def decodeBytesTry (l : List Byte) : Option (List Char) :=
  (utf8Decode l).orElse fun _ =>
    (utf8SigDecode l).orElse fun _ =>
      (some (latin1Decode l)).orElse fun _ =>
        cp1252Decode l

/-- `app._decode_bytes`: the four-way attempt, with
`b.decode("utf-8", errors="ignore")` as the final fallback. -/
def decode_bytes (l : List Byte) : List Char :=
  (decodeBytesTry l).getD (utf8IgnoreDecode l)

/-! ### Claim theorem C7 -/

/-- C7: decoding attempts UTF-8, UTF-8-with-BOM, then Latin-1 in order
with the first success winning; the Latin-1 attempt always succeeds, so
the chain resolves for every byte string (the cp1252 attempt and the
ignore-errors fallback are unreachable) and decoding never fails. -/
theorem decode_bytes_total_first_success (l : List Byte) :
    (decodeBytesTry l).isSome = true ∧
    decode_bytes l =
      (match utf8Decode l with
       | some s => s
       | none =>
         match utf8SigDecode l with
         | some s => s
         | none => latin1Decode l) := by
  cases h1 : utf8Decode l with
  | some s => simp [decode_bytes, decodeBytesTry, h1]
  | none =>
    cases h2 : utf8SigDecode l with
    | some s => simp [decode_bytes, decodeBytesTry, h1, h2]
    | none => simp [decode_bytes, decodeBytesTry, h1, h2]


/-! ## Placeholder discovery (`app.py` `find_placeholders`) -/

/-- The character class `[A-Za-z0-9_.\\-]` of the placeholder pattern. -/
def isNameChar (c : Char) : Bool :=
  c.isAlphanum || c = '_' || c = '.' || c = '-'

/-- ASCII whitespace as matched by the pattern's `\\s`. -/
def isPatternSpace (c : Char) : Bool :=
  c = ' ' || c = '\t' || c = '\n' || c = '\r' || c = '\x0b' || c = '\x0c'

/-- After the opening `\x7b\x7b` delimiter: optional whitespace, a
non-empty run of name characters, optional whitespace, and the closing
`\x7d\x7d` delimiter.  Returns the captured name and the input remaining
after the match; `none` when the pattern does not match here.  Because
the whitespace class, the name class and the closing brace are mutually
exclusive, the regex engine's greedy matching is exactly this maximal
munch. -/
def munchToken (l : List Char) : Option (List Char × List Char) :=
  let afterWs := l.dropWhile isPatternSpace
  let name := afterWs.takeWhile isNameChar
  let afterName := afterWs.dropWhile isNameChar
  if name.isEmpty then none
  else
    match afterName.dropWhile isPatternSpace with
    | '\x7d' :: '\x7d' :: rest => some (name, rest)
    | _ => none

theorem munchToken_length {l name rest : List Char}
    (h : munchToken l = some (name, rest)) : rest.length ≤ l.length := by
  unfold munchToken at h
  by_cases he : (List.takeWhile isNameChar (l.dropWhile isPatternSpace)).isEmpty
  · simp [he] at h
  · rw [if_neg he] at h
    split at h
    case neg.h_1 r heq =>
      injection h with h'
      injection h' with hn hr
      subst hr
      have h1 : (((l.dropWhile isPatternSpace).dropWhile isNameChar).dropWhile
          isPatternSpace).length ≤ l.length := by
        calc (((l.dropWhile isPatternSpace).dropWhile isNameChar).dropWhile
              isPatternSpace).length
            ≤ ((l.dropWhile isPatternSpace).dropWhile isNameChar).length :=
              (List.dropWhile_sublist _).length_le
          _ ≤ (l.dropWhile isPatternSpace).length :=
              (List.dropWhile_sublist _).length_le
          _ ≤ l.length := (List.dropWhile_sublist _).length_le
      rw [heq] at h1
      simp at h1
      omega
    case neg.h_2 => exact Option.noConfusion h

/-- `re.findall(r"\x7b\x7b\s*([A-Za-z0-9_\\-\\.]+)\s*\x7d\x7d", text)`:
scan left to right; at a double opening brace attempt the token match and
resume after the full match, otherwise advance one character.  The fuel
argument (instantiated with the input length, which bounds the number of
scan steps since every step strictly shortens the input) makes the
recursion structural so that the function reduces computationally. -/
def scanTokensAux (fuel : Nat) (l : List Char) : List (List Char) :=
  match fuel with
  | 0 => []
  | fuel' + 1 =>
    match l with
    | [] => []
    | '\x7b' :: '\x7b' :: rest =>
        match munchToken rest with
        | some (name, rest') => name :: scanTokensAux fuel' rest'
        | none => scanTokensAux fuel' ('\x7b' :: rest)
    | _ :: rest => scanTokensAux fuel' rest

/-- All pattern matches in the text, left to right. -/
def scanTokens (l : List Char) : List (List Char) :=
  scanTokensAux l.length l

/-- Python string comparison: lexicographic on code points. -/
def pyStrLeL : List Char → List Char → Bool
  | [], _ => true
  | _ :: _, [] => false
  | a :: as, b :: bs =>
      if a.toNat < b.toNat then true
      else if b.toNat < a.toNat then false
      else pyStrLeL as bs

/-- Python `s1 <= s2` on strings. -/
def pyStrLe (a b : String) : Bool := pyStrLeL a.data b.data

theorem pyStrLeL_total (as : List Char) : ∀ bs,
    pyStrLeL as bs = true ∨ pyStrLeL bs as = true := by
  induction as with
  | nil => intro bs; left; rfl
  | cons a as ih =>
      intro bs
      cases bs with
      | nil => right; rfl
      | cons b bs =>
          by_cases hab : a.toNat < b.toNat
          · left; simp [pyStrLeL, hab]
          · by_cases hba : b.toNat < a.toNat
            · right; simp [pyStrLeL, hba]
            · rcases ih bs with h | h
              · left; simp [pyStrLeL, hab, hba, h]
              · right; simp [pyStrLeL, hab, hba, h]

theorem pyStrLeL_trans (as : List Char) : ∀ bs cs,
    pyStrLeL as bs = true → pyStrLeL bs cs = true → pyStrLeL as cs = true := by
  induction as with
  | nil => intro bs cs h1 h2; rfl
  | cons a as ih =>
      intro bs cs h1 h2
      cases bs with
      | nil => simp [pyStrLeL] at h1
      | cons b bs =>
          cases cs with
          | nil => simp [pyStrLeL] at h2
          | cons c cs =>
              simp only [pyStrLeL] at h1 h2 ⊢
              by_cases hab : a.toNat < b.toNat
              · by_cases hbc : b.toNat < c.toNat
                · have hac : a.toNat < c.toNat := by omega
                  simp [hac]
                · by_cases hcb : c.toNat < b.toNat
                  · simp [hbc, hcb] at h2
                  · have hac : a.toNat < c.toNat := by omega
                    simp [hac]
              · by_cases hba : b.toNat < a.toNat
                · simp [hab, hba] at h1
                · by_cases hbc : b.toNat < c.toNat
                  · have hac : a.toNat < c.toNat := by omega
                    simp [hac]
                  · by_cases hcb : c.toNat < b.toNat
                    · simp [hbc, hcb] at h2
                    · have hac1 : ¬ a.toNat < c.toNat := by omega
                      have hac2 : ¬ c.toNat < a.toNat := by omega
                      simp [hab, hba] at h1
                      simp [hbc, hcb] at h2
                      simp [hac1, hac2]
                      exact ih bs cs h1 h2

instance : IsTotal String (fun a b => pyStrLe a b = true) :=
  ⟨fun a b => pyStrLeL_total a.data b.data⟩

instance : IsTrans String (fun a b => pyStrLe a b = true) :=
  ⟨fun a b c => pyStrLeL_trans a.data b.data c.data⟩

/-- `app.find_placeholders`: `sorted(set(re.findall(...)))`. -/
def find_placeholders (svg_text : String) : List String :=
  List.insertionSort (fun a b => pyStrLe a b = true)
    (((scanTokens svg_text.data).map String.mk).dedup)

/-! ### Claim theorem C8 -/

/-- C8: placeholder discovery is total and returns the duplicate-free,
sorted list of names matched by the token pattern; repeated matches of
the same name yield one entry. -/
theorem find_placeholders_spec (s : String) :
    (find_placeholders s).Sorted (fun a b : String => pyStrLe a b = true) ∧
    (find_placeholders s).Nodup ∧
    ∀ n : String, n ∈ find_placeholders s ↔ n ∈ (scanTokens s.data).map String.mk := by
  refine ⟨List.sorted_insertionSort _ _, ?_, ?_⟩
  · exact (List.perm_insertionSort _ _).nodup_iff.mpr (List.nodup_dedup _)
  · intro n
    unfold find_placeholders
    rw [(List.perm_insertionSort _ _).mem_iff, List.mem_dedup]



/-! ## Python numeric and string primitives -/

/-- `str.strip()` (ASCII whitespace). -/
def stripChars (l : List Char) : List Char :=
  ((l.dropWhile isPatternSpace).reverse.dropWhile isPatternSpace).reverse

/-- `str.lower()` (ASCII). -/
def lowerChars (l : List Char) : List Char := l.map Char.toLower

/-- Python `a in b` substring test. -/
def containsSub (pat : List Char) : List Char → Bool
  | [] => pat.isEmpty
  | c :: rest => pat.isPrefixOf (c :: rest) || containsSub pat rest

/-- Value of a digit run. -/
def digitsToNat (ds : List Char) : Nat :=
  ds.foldl (fun a c => a * 10 + (c.toNat - 48)) 0

/-- The mantissa part accepted by Python `float()`: digits, optionally a
decimal point with optional further digits, at least one digit overall. -/
def pyFloatNum (l : List Char) : Option (ℚ × List Char) :=
  let ip := l.takeWhile Char.isDigit
  let r1 := l.dropWhile Char.isDigit
  match r1 with
  | '.' :: r2 =>
      let fp := r2.takeWhile Char.isDigit
      let r3 := r2.dropWhile Char.isDigit
      if ip.isEmpty && fp.isEmpty then none
      else some ((digitsToNat ip : ℚ) + (digitsToNat fp : ℚ) / ((10 : ℚ) ^ fp.length), r3)
  | _ => if ip.isEmpty then none else some ((digitsToNat ip : ℚ), r1)

/-- An optionally signed exponent of digits. -/
def pyFloatExpPart (l : List Char) : Option (Int × List Char) :=
  match l with
  | '+' :: r =>
      let ds := r.takeWhile Char.isDigit
      if ds.isEmpty then none else some ((digitsToNat ds : Int), r.dropWhile Char.isDigit)
  | '-' :: r =>
      let ds := r.takeWhile Char.isDigit
      if ds.isEmpty then none else some (-(digitsToNat ds : Int), r.dropWhile Char.isDigit)
  | r =>
      let ds := r.takeWhile Char.isDigit
      if ds.isEmpty then none else some ((digitsToNat ds : Int), r.dropWhile Char.isDigit)

/-- Scale a rational by a power of ten. -/
def mulPow10 (q : ℚ) (e : Int) : ℚ :=
  if 0 ≤ e then q * (10 : ℚ) ^ e.toNat else q / (10 : ℚ) ^ (-e).toNat

/-- Unsigned Python float literal: mantissa with optional `e`/`E`
exponent part. -/
def pyFloatUnsigned (l : List Char) : Option (ℚ × List Char) :=
  match pyFloatNum l with
  | none => none
  | some (q, r) =>
    match r with
    | 'e' :: r2 =>
        match pyFloatExpPart r2 with
        | none => none
        | some (e, r3) => some (mulPow10 q e, r3)
    | 'E' :: r2 =>
        match pyFloatExpPart r2 with
        | none => none
        | some (e, r3) => some (mulPow10 q e, r3)
    | _ => some (q, r)

/-- Python `float(str)` on finite decimal / scientific notation input:
surrounding whitespace stripped, optional sign, full consumption
required.  The special values `inf` / `nan` and digit-group underscores
are outside the model (never produced by the code paths under proof);
values are exact rationals rather than IEEE doubles. -/
def pyFloat (s : List Char) : Option ℚ :=
  let t := stripChars s
  let signed : Option (ℚ × List Char) :=
    match t with
    | '+' :: r => pyFloatUnsigned r
    | '-' :: r => (pyFloatUnsigned r).map (fun p => (-p.1, p.2))
    | r => pyFloatUnsigned r
  match signed with
  | some (q, []) => some q
  | _ => none

/-- Python `round()` to an integer: round half to even. -/
def pyRound (q : ℚ) : Int :=
  if q - Int.floor q < 1 / 2 then Int.floor q
  else if q - Int.floor q > 1 / 2 then Int.floor q + 1
  else if 2 ∣ Int.floor q then Int.floor q else Int.floor q + 1

/-- `utils.mm_to_px` at the default 300 dpi:
`max(1, int(round(mm / 25.4 * dpi)))` (exact rational arithmetic in
place of binary floats). -/
def mm_to_px (mm : ℚ) : Int :=
  max 1 (pyRound (mm / (127 / 5) * 300))

/-- `str.split()`: split on whitespace runs, no empty fields.  The fuel
(instantiated with one more than the input length, which bounds the
number of fields) keeps the recursion structural. -/
def splitWsAux (fuel : Nat) (l : List Char) : List (List Char) :=
  match fuel with
  | 0 => []
  | fuel' + 1 =>
    let l' := l.dropWhile isPatternSpace
    if l'.isEmpty then []
    else (l'.takeWhile (fun c => !isPatternSpace c)) ::
      splitWsAux fuel' (l'.dropWhile (fun c => !isPatternSpace c))

/-- `str.split()` with the fuel instantiated. -/
def splitWs (l : List Char) : List (List Char) := splitWsAux (l.length + 1) l

/-- First attribute with the given name (XML attributes are unique). -/
def lookupAttr (attrs : List (String × String)) (name : String) : Option String :=
  (attrs.find? (fun p => p.1 == name)).map (fun p => p.2)

/-! ## Barcode fragment dimensions (`app.py` `_parse_svg_dimensions`) -/

/-- The character class of `re.match(r"^([0-9.+-eE]+)", v)`. -/
def isDimLeadChar (c : Char) : Bool :=
  c.isDigit || c = '.' || c = '+' || c = '-' || c = 'e' || c = 'E'

/-- `_attr_to_px`: `None`/empty attributes give `None`; `mm` suffixes
convert through `mm_to_px` with an uncaught `ValueError` (the `error`
constructor) on a malformed number; `px` and `pt` suffixes convert with
an inner try/except giving `None` on failure; otherwise the leading
`[0-9.+-eE]+` run is parsed with an inner try/except. -/
def attrToPx (v : Option String) : Except Unit (Option ℚ) :=
  match v with
  | none => .ok none
  | some s0 =>
    if s0.data.isEmpty then .ok none
    else
      let t := stripChars s0.data
      if "mm".data.isSuffixOf t then
        match pyFloat (t.dropLast.dropLast) with
        | none => .error ()
        | some f => .ok (some ((mm_to_px f : Int) : ℚ))
      else if "px".data.isSuffixOf t then
        .ok (pyFloat (t.dropLast.dropLast))
      else if "pt".data.isSuffixOf t then
        .ok ((pyFloat (t.dropLast.dropLast)).map (fun f => f * (13333333 / 10000000)))
      else
        .ok (pyFloat (t.takeWhile isDimLeadChar))

/-- `_parse_svg_dimensions` on the parse outcome of the fragment text
(`none` models a failed `etree.fromstring`): the `viewBox` attribute is
preferred (an exception anywhere in the body yields the
`(1000, 1000)` default); otherwise width/height attributes when both are
truthy (present and nonzero); otherwise `(1000, 1000)`. -/
def parse_svg_dimensions (doc : Option SvgNode) : ℚ × ℚ :=
  match doc with
  | none => (1000, 1000)
  | some root =>
    let attrDims : ℚ × ℚ :=
      match attrToPx (lookupAttr root.attrs "width"),
            attrToPx (lookupAttr root.attrs "height") with
      | .ok (some w), .ok (some h) =>
          if w ≠ 0 ∧ h ≠ 0 then (w, h) else (1000, 1000)
      | _, _ => (1000, 1000)
    match lookupAttr root.attrs "viewBox" with
    | some vb =>
        if vb.data.isEmpty then attrDims
        else
          match (splitWs (stripChars vb.data)).mapM (fun p => pyFloat p) with
          | none => (1000, 1000)
          | some ps => if ps.length = 4 then (ps.getD 2 0, ps.getD 3 0) else attrDims
    | none => attrDims

/-- The height-fit scale factor of the barcode branch of
`apply_mapping_to_svg`: `1.0` when the intrinsic height is zero,
otherwise `desired_h_px / orig_h`. -/
def scale_by_height (desired_h_px : ℚ) (orig_h : ℚ) : ℚ :=
  if orig_h = 0 then 1 else desired_h_px / orig_h

/-! ### Claim theorem C10 -/

/-- C10: the height-fit transform never divides by zero: a zero parsed
intrinsic height short-circuits to scale 1.0, an unparseable fragment
defaults to 1000 by 1000 (hence nonzero height), and the division is
only performed with a nonzero denominator. -/
theorem barcode_scale_safe (doc : Option SvgNode) (desired : ℚ) :
    (parse_svg_dimensions none = (1000, 1000)) ∧
    ((parse_svg_dimensions doc).2 = 0 →
      scale_by_height desired (parse_svg_dimensions doc).2 = 1) ∧
    ((parse_svg_dimensions doc).2 ≠ 0 →
      scale_by_height desired (parse_svg_dimensions doc).2 =
        desired / (parse_svg_dimensions doc).2) := by
  refine ⟨rfl, ?_, ?_⟩
  · intro h
    simp [scale_by_height, h]
  · intro h
    simp [scale_by_height, h]

/-- Witness for C10 at a fragment whose `viewBox` declares height 0. -/
theorem barcode_scale_safe_witness :
    scale_by_height ((mm_to_px 25 : Int) : ℚ)
      (parse_svg_dimensions (some (SvgNode.node "svg"
        [("viewBox", "0 0 100 0")] .nil))).2 = 1 :=
  (barcode_scale_safe
    (some (SvgNode.node "svg" [("viewBox", "0 0 100 0")] .nil))
    ((mm_to_px 25 : Int) : ℚ)).2.1 (by decide)



/-! ## Background rectangle stripping (`app.py`
`_remove_white_background_rects`) -/

/-- `el.tag.lower().endswith("rect")`. -/
def isRectTag (tag : String) : Bool :=
  "rect".data.isSuffixOf (lowerChars tag.data)

/-- `(el.get("fill") or "").strip().lower()`. -/
def fillOf (attrs : List (String × String)) : List Char :=
  lowerChars (stripChars ((lookupAttr attrs "fill").getD "").data)

/-- `el.get("style") or ""`. -/
def styleOf (attrs : List (String × String)) : List Char :=
  ((lookupAttr attrs "style").getD "").data

/-- `"fill:#fff" in style or "fill:#ffffff" in style or "fill:white" in style`. -/
def styleHasWhiteFill (style : List Char) : Bool :=
  containsSub "fill:#fff".data style ||
  containsSub "fill:#ffffff".data style ||
  containsSub "fill:white".data style

/-- The white-fill branch of the removal loop: enter when the fill is one
of the four white spellings or empty; remove when the inline style names
a white fill, or (`elif`) the fill is one of only `#fff`, `#ffffff`,
`white` - the `rgb(255,255,255)` spelling is absent from the `elif`
tuple. -/
def fillBranch (attrs : List (String × String)) : Bool :=
  let fill := fillOf attrs
  (fill == "#fff".data || fill == "#ffffff".data || fill == "white".data ||
    fill == "rgb(255,255,255)".data || fill.isEmpty) &&
  (styleHasWhiteFill (styleOf attrs) ||
    (fill == "#fff".data || fill == "#ffffff".data || fill == "white".data))

/-- `float(el.get("width") or 0)`: a missing or empty attribute is the
number 0; otherwise Python float parsing, `none` on `ValueError`. -/
def pyFloatOrZero (v : Option String) : Option ℚ :=
  match v with
  | none => some 0
  | some s => if s.data.isEmpty then some 0 else pyFloat s.data

/-- The large-rectangle branch: both attributes must parse (a parse
failure on either skips the whole check), both must be positive, and one
of them must exceed 500. -/
def sizeBranch (attrs : List (String × String)) : Bool :=
  match pyFloatOrZero (lookupAttr attrs "width"),
        pyFloatOrZero (lookupAttr attrs "height") with
  | some w, some h =>
      decide (0 < w) && decide (0 < h) && (decide (500 < w) || decide (500 < h))
  | _, _ => false

/-- A rectangle the removal loop marks for removal. -/
def removableRect (attrs : List (String × String)) : Bool :=
  fillBranch attrs || sizeBranch attrs

/-- A node the removal loop removes: a `rect` tag marked removable. -/
def shouldRemoveNode (n : SvgNode) : Bool :=
  isRectTag n.tag && removableRect n.attrs

mutual
/-- `_remove_white_background_rects`: removable descendants are detached
from their parents (the root itself has no parent and is never
removed); detaching a node drops its whole subtree. -/
def stripWhiteRects : SvgNode → SvgNode
  | .node t a cs => .node t a (stripForest cs)
/-- The removal filter over a forest of siblings. -/
def stripForest : SvgForest → SvgForest
  | .nil => .nil
  | .cons c cs =>
      if shouldRemoveNode c then stripForest cs
      else .cons (stripWhiteRects c) (stripForest cs)
end

/-- Proper-descendant relation on the element tree. -/
inductive SvgDesc : SvgNode → SvgNode → Prop
  | child {c n : SvgNode} : c ∈ n.childList → SvgDesc c n
  | step {m c n : SvgNode} : SvgDesc m c → c ∈ n.childList → SvgDesc m n

theorem strip_preserves_tag (n : SvgNode) :
    (stripWhiteRects n).tag = n.tag := by
  cases n
  rfl

theorem strip_preserves_attrs (n : SvgNode) :
    (stripWhiteRects n).attrs = n.attrs := by
  cases n
  rfl

theorem shouldRemove_strip (n : SvgNode) :
    shouldRemoveNode (stripWhiteRects n) = shouldRemoveNode n := by
  unfold shouldRemoveNode
  rw [strip_preserves_tag, strip_preserves_attrs]

/-- Members of a stripped forest are the strips of surviving members. -/
theorem mem_stripForest {m : SvgNode} : (cs : SvgForest) →
    m ∈ (stripForest cs).toList →
    ∃ c, c ∈ cs.toList ∧ shouldRemoveNode c = false ∧ m = stripWhiteRects c
  | .nil, h => by simp [stripForest, SvgForest.toList] at h
  | .cons c cs, h => by
      rw [stripForest] at h
      by_cases hr : shouldRemoveNode c
      · rw [if_pos hr] at h
        obtain ⟨d, hd, hrem, heq⟩ := mem_stripForest cs h
        exact ⟨d, by simp [SvgForest.toList, hd], hrem, heq⟩
      · rw [if_neg hr] at h
        simp only [SvgForest.toList, List.mem_cons] at h
        rcases h with h | h
        · exact ⟨c, by simp [SvgForest.toList], by simpa using hr, h⟩
        · obtain ⟨d, hd, hrem, heq⟩ := mem_stripForest cs h
          exact ⟨d, by simp [SvgForest.toList, hd], hrem, heq⟩

/-- Surviving members: a non-removable member's strip stays in the
stripped forest. -/
theorem strip_mem_stripForest {c : SvgNode} : (cs : SvgForest) →
    c ∈ cs.toList → shouldRemoveNode c = false →
    stripWhiteRects c ∈ (stripForest cs).toList
  | .nil, hmem, _ => by simp [SvgForest.toList] at hmem
  | .cons d cs, hmem, hkeep => by
      simp only [SvgForest.toList, List.mem_cons] at hmem
      rw [stripForest]
      rcases hmem with rfl | hmem
      · rw [if_neg (by simp [hkeep])]
        simp [SvgForest.toList]
      · by_cases hr : shouldRemoveNode d
        · rw [if_pos hr]
          exact strip_mem_stripForest cs hmem hkeep
        · rw [if_neg hr]
          simp [SvgForest.toList]
          right
          exact strip_mem_stripForest cs hmem hkeep

/-- No removable node survives anywhere below the stripped root. -/
theorem strip_removes_all {m r : SvgNode} (hdesc : SvgDesc m r) :
    ∀ n : SvgNode, r = stripWhiteRects n → shouldRemoveNode m = false := by
  induction hdesc with
  | child hmem =>
      intro n hr
      subst hr
      cases n with
      | node t a cs =>
          obtain ⟨c, _, hrem, heq⟩ := mem_stripForest cs (by
            simpa [SvgNode.childList, SvgNode.children, stripWhiteRects] using hmem)
          subst heq
          rw [shouldRemove_strip]
          exact hrem
  | step hdesc hmem ih =>
      intro n hr
      subst hr
      cases n with
      | node t a cs =>
          obtain ⟨c, _, hrem, heq⟩ := mem_stripForest cs (by
            simpa [SvgNode.childList, SvgNode.children, stripWhiteRects] using hmem)
          exact ih c heq



/-! ### Claim theorems C4 -/

/-- The removal condition as the amended claim states it: fill (stripped,
lowercased) one of `#fff`, `#ffffff`, `white`; or fill white-equivalent
(those three, `rgb(255,255,255)`) or empty while the inline style
contains a white-fill substring; or width and height both parsing as
positive numbers with one of them exceeding 500. -/
def specRemovable (attrs : List (String × String)) : Prop :=
  (fillOf attrs = "#fff".data ∨ fillOf attrs = "#ffffff".data ∨
    fillOf attrs = "white".data) ∨
  ((fillOf attrs = "#fff".data ∨ fillOf attrs = "#ffffff".data ∨
      fillOf attrs = "white".data ∨ fillOf attrs = "rgb(255,255,255)".data ∨
      fillOf attrs = []) ∧
    styleHasWhiteFill (styleOf attrs) = true) ∨
  (∃ w h : ℚ, pyFloatOrZero (lookupAttr attrs "width") = some w ∧
    pyFloatOrZero (lookupAttr attrs "height") = some h ∧
    0 < w ∧ 0 < h ∧ (500 < w ∨ 500 < h))

theorem removableRect_iff_spec (attrs : List (String × String)) :
    removableRect attrs = true ↔ specRemovable attrs := by
  unfold removableRect specRemovable fillBranch sizeBranch
  cases hw : pyFloatOrZero (lookupAttr attrs "width") with
  | none =>
      simp only [hw, Bool.or_eq_false_iff]
      constructor
      · intro h
        simp only [Bool.or_eq_true, Bool.and_eq_true, beq_iff_eq,
          List.isEmpty_iff] at h
        rcases h with ⟨h1, h2⟩ | h
        · rcases h2 with h2 | h2
          · right; left
            exact ⟨by tauto, h2⟩
          · left; tauto
        · exact absurd h (by simp)
      · intro h
        rcases h with h | h | h
        · simp only [Bool.or_eq_true, Bool.and_eq_true, beq_iff_eq,
            List.isEmpty_iff]
          left
          exact ⟨by tauto, by tauto⟩
        · simp only [Bool.or_eq_true, Bool.and_eq_true, beq_iff_eq,
            List.isEmpty_iff]
          left
          exact ⟨by tauto, by tauto⟩
        · obtain ⟨w, h', hw', _⟩ := h
          exact Option.noConfusion hw'
  | some w =>
    cases hh : pyFloatOrZero (lookupAttr attrs "height") with
    | none =>
        simp only [hw, hh]
        constructor
        · intro h
          simp only [Bool.or_eq_true, Bool.and_eq_true, beq_iff_eq,
            List.isEmpty_iff] at h
          rcases h with ⟨h1, h2⟩ | h
          · rcases h2 with h2 | h2
            · right; left
              exact ⟨by tauto, h2⟩
            · left; tauto
          · exact absurd h (by simp)
        · intro h
          rcases h with h | h | h
          · simp only [Bool.or_eq_true, Bool.and_eq_true, beq_iff_eq,
              List.isEmpty_iff]
            left
            exact ⟨by tauto, by tauto⟩
          · simp only [Bool.or_eq_true, Bool.and_eq_true, beq_iff_eq,
              List.isEmpty_iff]
            left
            exact ⟨by tauto, by tauto⟩
          · obtain ⟨w', h', _, hh', _⟩ := h
            exact Option.noConfusion hh'
    | some h' =>
        simp only [hw, hh]
        constructor
        · intro h
          simp only [Bool.or_eq_true, Bool.and_eq_true, beq_iff_eq,
            List.isEmpty_iff, decide_eq_true_eq] at h
          rcases h with ⟨h1, h2⟩ | ⟨⟨hp1, hp2⟩, hgt⟩
          · rcases h2 with h2 | h2
            · right; left
              exact ⟨by tauto, h2⟩
            · left; tauto
          · right; right
            exact ⟨w, h', rfl, rfl, hp1, hp2, by tauto⟩
        · intro h
          simp only [Bool.or_eq_true, Bool.and_eq_true, beq_iff_eq,
            List.isEmpty_iff, decide_eq_true_eq]
          rcases h with h | h | h
          · left
            exact ⟨by tauto, by tauto⟩
          · left
            exact ⟨by tauto, by tauto⟩
          · obtain ⟨w2, h2, hw2, hh2, hpos1, hpos2, hgt⟩ := h
            injection hw2 with hw2
            injection hh2 with hh2
            subst hw2
            subst hh2
            right
            exact ⟨⟨hpos1, hpos2⟩, by tauto⟩

/-- C4 (counterexample to the claim as stated): a rectangle whose fill
attribute is exactly `rgb(255,255,255)` (with no style and no large
dimensions) is NOT removed - the `elif` tuple of the source omits this
spelling - so the background-stripping step does not remove every
white-equivalent rectangle. -/
theorem remove_white_rects_counterexample :
    stripWhiteRects (SvgNode.node "svg" []
      (.cons (SvgNode.node "rect" [("fill", "rgb(255,255,255)")] .nil) .nil)) =
    SvgNode.node "svg" []
      (.cons (SvgNode.node "rect" [("fill", "rgb(255,255,255)")] .nil) .nil) ∧
    fillOf [("fill", "rgb(255,255,255)")] = "rgb(255,255,255)".data ∧
    removableRect [("fill", "rgb(255,255,255)")] = false := by
  refine ⟨rfl, rfl, rfl⟩

/-- C4 (amended): the stripping step removes exactly the rectangles
satisfying `specRemovable` - fill in `#fff`/`#ffffff`/`white`; or fill
white-equivalent-or-empty with a white inline style; or both dimensions
parsing positive with one side above 500.  Equivalently: the marking
predicate coincides with `specRemovable`, no removable rectangle
survives below the stripped root, and every non-removable child's
stripped form survives. -/
theorem remove_white_rects_amended :
    (∀ attrs, removableRect attrs = true ↔ specRemovable attrs) ∧
    (∀ n m : SvgNode, SvgDesc m (stripWhiteRects n) →
      shouldRemoveNode m = false) ∧
    (∀ n c : SvgNode, c ∈ n.childList → shouldRemoveNode c = false →
      stripWhiteRects c ∈ (stripWhiteRects n).childList) := by
  refine ⟨removableRect_iff_spec, ?_, ?_⟩
  · intro n m hdesc
    exact strip_removes_all hdesc n rfl
  · intro n c hmem hkeep
    cases n with
    | node t a cs =>
        simpa [SvgNode.childList, SvgNode.children, stripWhiteRects]
          using strip_mem_stripForest cs
            (by simpa [SvgNode.childList, SvgNode.children] using hmem) hkeep

/-- Witness for C4 (amended): a black bar rectangle survives stripping
next to a removed white backdrop. -/
theorem remove_white_rects_amended_witness :
    stripWhiteRects (SvgNode.node "rect" [("fill", "black")] .nil) ∈
      (stripWhiteRects (SvgNode.node "svg" []
        (.cons (SvgNode.node "rect" [("fill", "#ffffff")] .nil)
          (.cons (SvgNode.node "rect" [("fill", "black")] .nil) .nil)))).childList :=
  remove_white_rects_amended.2.2
    (SvgNode.node "svg" []
      (.cons (SvgNode.node "rect" [("fill", "#ffffff")] .nil)
        (.cons (SvgNode.node "rect" [("fill", "black")] .nil) .nil)))
    (SvgNode.node "rect" [("fill", "black")] .nil)
    (by decide) (by decide)



/-! ## Record binding (`app.py` `apply_mapping_to_svg`) -/

/-- One mapping entry as the binder reads it: every field is optional
because entries are plain dicts read with `.get` defaults.  Numeric
fields are exact rationals standing for Python floats. -/
structure MapCfg where
  col : Option String
  align : Option String
  dx : Option ℚ
  dy : Option ℚ
  scale : Option ℚ
  type : Option String
  height_mm : Option ℚ
deriving DecidableEq

/-- `mapping.get(ph)` on the mapping dict. -/
def mapLookup (m : List (String × MapCfg)) (ph : String) : Option MapCfg :=
  (m.find? (fun p => p.1 == ph)).map (fun p => p.2)

/-- `record.get(col)` on the data record. -/
def recLookup (rec : List (String × String)) (k : String) : Option String :=
  (rec.find? (fun p => p.1 == k)).map (fun p => p.2)

/-- `mapping.get(ph, \x7b\x7d).get("type", "Text")`. -/
def cfgType (m : List (String × MapCfg)) (ph : String) : String :=
  match mapLookup m ph with
  | none => "Text"
  | some c => c.type.getD "Text"

/-- The tokens found in the element's combined text content. -/
def elemTokens (content : String) : List String :=
  (scanTokens content.data).map String.mk

/-- `[ph for ph in matches if mapping.get(ph, \x7b\x7d).get("type", "Text").startswith("Barcode")]`. -/
def barcodePlaceholders (m : List (String × MapCfg)) (content : String) : List String :=
  (elemTokens content).filter (fun ph => "Barcode".data.isPrefixOf (cfgType m ph).data)

/-- `if barcode_placeholders and len(matches) == 1:`. -/
def takesBarcodePath (m : List (String × MapCfg)) (content : String) : Bool :=
  !(barcodePlaceholders m content).isEmpty && (elemTokens content).length == 1

/-- Which branch of the per-element loop runs. -/
inductive BindPath where
  | untouched
  | barcode
  | text
deriving DecidableEq

/-- The branch taken for a text element with the given combined content:
elements without tokens are skipped; the barcode branch needs a barcode
placeholder and exactly one token; everything else takes the plain text
substitution branch. -/
def bindPath (m : List (String × MapCfg)) (content : String) : BindPath :=
  if (elemTokens content).isEmpty then .untouched
  else if takesBarcodePath m content then .barcode
  else .text

/-! ### Claim theorem C5 -/

/-- C5: when every mapping entry's kind is `Text` or `Barcode EAN13`, a
text element with at least one token takes the barcode branch exactly
when it contains exactly one token and that token's kind is
`Barcode EAN13`; otherwise it takes the plain text branch. -/
theorem barcode_path_iff (m : List (String × MapCfg)) (content : String)
    (htypes : ∀ p c, (p, c) ∈ m →
      c.type.getD "Text" = "Text" ∨ c.type.getD "Text" = "Barcode EAN13")
    (hsome : elemTokens content ≠ []) :
    (bindPath m content = .barcode ↔
      ∃ ph, elemTokens content = [ph] ∧ cfgType m ph = "Barcode EAN13") ∧
    (bindPath m content = .text ↔
      ¬∃ ph, elemTokens content = [ph] ∧ cfgType m ph = "Barcode EAN13") := by
  have htype2 : ∀ ph, cfgType m ph = "Text" ∨ cfgType m ph = "Barcode EAN13" := by
    intro ph
    unfold cfgType
    cases hml : mapLookup m ph with
    | none => left; rfl
    | some c =>
        unfold mapLookup at hml
        cases hf : m.find? (fun p => p.1 == ph) with
        | none => rw [hf] at hml; exact Option.noConfusion hml
        | some p =>
            rw [hf] at hml
            injection hml with hml
            subst hml
            exact htypes p.1 p.2 (by
              have := List.mem_of_find?_eq_some hf
              simpa using this)
  have hbar : takesBarcodePath m content = true ↔
      ∃ ph, elemTokens content = [ph] ∧ cfgType m ph = "Barcode EAN13" := by
    unfold takesBarcodePath
    constructor
    · intro h
      simp only [Bool.and_eq_true, Bool.not_eq_true', List.isEmpty_eq_false,
        beq_iff_eq] at h
      obtain ⟨hne, hlen⟩ := h
      obtain ⟨ph, hph⟩ := List.length_eq_one.mp hlen
      refine ⟨ph, hph, ?_⟩
      rcases htype2 ph with ht | ht
      · exfalso
        apply hne
        unfold barcodePlaceholders
        rw [hph]
        simp [ht]
      · exact ht
    · rintro ⟨ph, hph, htype⟩
      simp only [Bool.and_eq_true, Bool.not_eq_true', List.isEmpty_eq_false,
        beq_iff_eq]
      constructor
      · unfold barcodePlaceholders
        rw [hph]
        simp [htype]
      · rw [hph]
        rfl
  have hnil : (elemTokens content).isEmpty = false := by
    simpa [List.isEmpty_eq_false] using hsome
  constructor
  · rw [← hbar]
    unfold bindPath
    rw [hnil]
    by_cases ht : takesBarcodePath m content
    · simp [ht]
    · simp [ht]
  · rw [← hbar]
    unfold bindPath
    rw [hnil]
    by_cases ht : takesBarcodePath m content
    · simp [ht]
    · simp [ht]

/-- Witness for C5: a lone `sku` token mapped to `Barcode EAN13` takes
the barcode branch. -/
theorem barcode_path_iff_witness :
    bindPath [("sku", MapCfg.mk (some "sku") (some "Left") (some 0) (some 0)
      (some 1) (some "Barcode EAN13") (some 25))]
      "\x7b\x7bsku\x7d\x7d" = .barcode :=
  (barcode_path_iff _ _
    (by
      intro p c hpc
      simp at hpc
      rcases hpc with ⟨rfl, rfl⟩
      right
      rfl)
    (by decide)).1.mpr ⟨"sku", by decide, by decide⟩



/-! ### Per-element processing (barcode branch and text branch) -/

/-- Python `a or b` on an optional string: `None` and the empty string
are falsy. -/
def orStr (a : Option String) (b : String) : String :=
  match a with
  | none => b
  | some s => if s.data.isEmpty then b else s

/-- `barcode_placeholders[0]` (the branch guarantees non-emptiness). -/
def barcodePhOf (m : List (String × MapCfg)) (content : String) : String :=
  (barcodePlaceholders m content).headD ""

/-- `cfg.get("col", ph)` where `cfg = mapping.get(ph, \x7b"col": ph, "align": "Left"\x7d)`. -/
def colOf (m : List (String × MapCfg)) (ph : String) : String :=
  match mapLookup m ph with
  | some c => c.col.getD ph
  | none => ph

/-- The bound value `record.get(col, "")` for the barcode placeholder. -/
def valOf (m : List (String × MapCfg)) (rec : List (String × String))
    (content : String) : String :=
  (recLookup rec (colOf m (barcodePhOf m content))).getD ""

/-- `float(cfg.get("height_mm", 25.0) or 25.0)`: missing or falsy
(zero) heights fall back to 25. -/
def heightOf (m : List (String × MapCfg)) (ph : String) : ℚ :=
  let h := ((mapLookup m ph).bind (fun c => c.height_mm)).getD 25
  if h = 0 then 25 else h

/-- `float(cfg.get("dx", 0) or 0)`. -/
def dxOf (m : List (String × MapCfg)) (ph : String) : ℚ :=
  ((mapLookup m ph).bind (fun c => c.dx)).getD 0

/-- `float(cfg.get("dy", 0) or 0)`. -/
def dyOf (m : List (String × MapCfg)) (ph : String) : ℚ :=
  ((mapLookup m ph).bind (fun c => c.dy)).getD 0

/-- `float(cfg.get("scale", 1.0) or 1.0)`: missing or falsy (zero)
scales fall back to 1. -/
def scaleOf (m : List (String × MapCfg)) (ph : String) : ℚ :=
  let v := ((mapLookup m ph).bind (fun c => c.scale)).getD 1
  if v = 0 then 1 else v

/-- `str.splitlines()` restricted to `\n`, `\r\n`, `\r` (fuel is one
more than the input length, bounding the number of lines). -/
def splitLinesAux (fuel : Nat) (l : List Char) : List (List Char) :=
  match fuel with
  | 0 => []
  | fuel' + 1 =>
    match l with
    | [] => []
    | _ =>
      let line := l.takeWhile (fun c => c ≠ '\n' && c ≠ '\r')
      let rest := l.dropWhile (fun c => c ≠ '\n' && c ≠ '\r')
      match rest with
      | '\r' :: '\n' :: r => line :: splitLinesAux fuel' r
      | _ :: r => line :: splitLinesAux fuel' r
      | [] => [line]

/-- `str(new_text).splitlines() or [""]`. -/
def splitLinesPy (l : List Char) : List (List Char) :=
  match splitLinesAux (l.length + 1) l with
  | [] => [[]]
  | ls => ls

/-- Single-pass substitution of every placeholder token by the record
value of its mapped column (empty string for missing/null values),
preserving surrounding text.  The source iterates `re.sub` once per
matched name; on contents whose substituted values do not themselves
contain placeholder tokens this is the same function.  Fuel as in
`scanTokensAux`. -/
def substTokensAux (m : List (String × MapCfg)) (rec : List (String × String))
    (fuel : Nat) (l : List Char) : List Char :=
  match fuel with
  | 0 => l
  | fuel' + 1 =>
    match l with
    | [] => []
    | '\x7b' :: '\x7b' :: rest =>
        match munchToken rest with
        | some (name, rest') =>
            ((recLookup rec (colOf m (String.mk name))).getD "").data ++
              substTokensAux m rec fuel' rest'
        | none => '\x7b' :: substTokensAux m rec fuel' ('\x7b' :: rest)
    | c :: rest => c :: substTokensAux m rec fuel' rest

/-- The substituted content of the text branch. -/
def substTokens (m : List (String × MapCfg)) (rec : List (String × String))
    (content : String) : List Char :=
  substTokensAux m rec content.data.length content.data

/-- `align_map.get(cfg0.get("align", "Left"), "start")` with
`align_map = \x7bLeft: start, Center: middle, Right: end, Justify: start\x7d`. -/
def alignAnchor (a : String) : String :=
  if a = "Left" then "start"
  else if a = "Center" then "middle"
  else if a = "Right" then "end"
  else if a = "Justify" then "start"
  else "start"

/-- `cfg0.get("align", "Left")` for the first matched token. -/
def alignOf (m : List (String × MapCfg)) (ph : String) : String :=
  ((mapLookup m ph).bind (fun c => c.align)).getD "Left"

/-- The outcome of processing one text element during binding.  The
barcode group and text transforms are carried structurally
(translate x, translate y, scale) rather than as formatted strings. -/
inductive ElemOut where
  | untouched
  | cleared
  | barcodeGroup (tx ty s : ℚ) (strippedFrag : SvgNode)
  | errorText (msg : String)
  | textSubst (lines : List (List Char)) (anchor : String) (tx ty s : ℚ)
deriving DecidableEq

/-- The body of the `for text_elem in text_nodes` loop of
`apply_mapping_to_svg` for one element, given its combined text content
and its `x`/`y`/`dx`/`dy` attributes.  `gen` is the external
`python-barcode` SVG writer. -/
def processElem (gen : List Char → Except String SvgNode)
    (m : List (String × MapCfg)) (rec : List (String × String))
    (content : String) (xAttr yAttr dxAttr dyAttr : Option String) : ElemOut :=
  let mts := elemTokens content
  if mts.isEmpty then .untouched
  else if takesBarcodePath m content then
    let ph := barcodePhOf m content
    let val := valOf m rec content
    if (stripChars val.data).isEmpty then .cleared
    else
      let desired : ℚ := (mm_to_px (heightOf m ph) : Int)
      let xf : ℚ := (pyFloat (orStr xAttr (orStr dxAttr "0")).data).getD 0
      let yf : ℚ := (pyFloat (orStr yAttr (orStr dyAttr "0")).data).getD 0
      match render_barcode_svg_text gen val.data with
      | .error e => .errorText ("[barcode svg error: " ++ e ++ "]")
      | .ok frag =>
          let stripped := stripWhiteRects frag
          let dims := parse_svg_dimensions (some frag)
          .barcodeGroup (xf + dxOf m ph) (yf + dyOf m ph)
            (scale_by_height desired dims.2 * scaleOf m ph) stripped
  else
    let ph0 := mts.headD ""
    .textSubst (splitLinesPy (substTokens m rec content))
      (alignAnchor (alignOf m ph0)) (dxOf m ph0) (dyOf m ph0)
      ((((mapLookup m ph0).bind (fun c => c.scale)).getD 1))

/-- One text element of the document as the loop sees it. -/
structure TextElem where
  content : String
  x : Option String
  y : Option String
  dx : Option String
  dy : Option String
deriving DecidableEq

/-- `apply_mapping_to_svg` over the snapshot list of text elements: each
element is processed independently, in order. -/
def apply_mapping_to_svg (gen : List Char → Except String SvgNode)
    (m : List (String × MapCfg)) (rec : List (String × String))
    (elems : List TextElem) : List ElemOut :=
  elems.map (fun e => processElem gen m rec e.content e.x e.y e.dx e.dy)

/-! ### Claim theorem C6 -/

/-- C6: when barcode generation fails for an element (for instance on an
invalid code), the bind does not raise: the element becomes the inline
error marker `[barcode svg error: ...]`, the output still has one
outcome per element, and every other element is processed normally. -/
theorem bind_isolates_barcode_failures
    (gen : List Char → Except String SvgNode)
    (m : List (String × MapCfg)) (rec : List (String × String))
    (elems : List TextElem) (i : Nat) (e : TextElem) (msg : String)
    (hi : elems[i]? = some e)
    (hpath : bindPath m e.content = .barcode)
    (hval : (stripChars (valOf m rec e.content).data).isEmpty = false)
    (hfail : render_barcode_svg_text gen (valOf m rec e.content).data =
      .error msg) :
    (apply_mapping_to_svg gen m rec elems)[i]? =
      some (.errorText ("[barcode svg error: " ++ msg ++ "]")) ∧
    (apply_mapping_to_svg gen m rec elems).length = elems.length ∧
    (∀ j e', j ≠ i → elems[j]? = some e' →
      (apply_mapping_to_svg gen m rec elems)[j]? =
        some (processElem gen m rec e'.content e'.x e'.y e'.dx e'.dy)) := by
  have hmatches : (elemTokens e.content).isEmpty = false := by
    unfold bindPath at hpath
    by_cases hm : (elemTokens e.content).isEmpty
    · rw [if_pos hm] at hpath
      exact absurd hpath (by simp)
    · simpa using hm
  have htake : takesBarcodePath m e.content = true := by
    unfold bindPath at hpath
    rw [if_neg (by simp [hmatches])] at hpath
    by_cases ht : takesBarcodePath m e.content
    · exact ht
    · rw [if_neg ht] at hpath
      exact absurd hpath (by simp)
  have hproc : processElem gen m rec e.content e.x e.y e.dx e.dy =
      .errorText ("[barcode svg error: " ++ msg ++ "]") := by
    unfold processElem
    rw [if_neg (by simp [hmatches]), if_pos htake, if_neg (by simp [hval]),
      hfail]
  refine ⟨?_, ?_, ?_⟩
  · unfold apply_mapping_to_svg
    rw [List.getElem?_map, hi]
    simp [hproc]
  · unfold apply_mapping_to_svg
    exact List.length_map _ _
  · intro j e' _ hj
    unfold apply_mapping_to_svg
    rw [List.getElem?_map, hj]
    rfl

/-- Witness for C6: a three-digit value in a one-element document yields
the inline error marker. -/
theorem bind_isolates_barcode_failures_witness :
    (apply_mapping_to_svg (fun _ => .ok (SvgNode.node "svg" [] .nil))
      [("sku", MapCfg.mk (some "sku") (some "Left") (some 0) (some 0)
        (some 1) (some "Barcode EAN13") (some 25))]
      [("sku", "123")]
      [TextElem.mk "\x7b\x7bsku\x7d\x7d" (some "5") (some "5") none none])[0]? =
      some (.errorText ("[barcode svg error: " ++
        ("EAN not normalizable: " ++ "123") ++ "]")) :=
  (bind_isolates_barcode_failures
    (fun _ => .ok (SvgNode.node "svg" [] .nil))
    [("sku", MapCfg.mk (some "sku") (some "Left") (some 0) (some 0)
      (some 1) (some "Barcode EAN13") (some 25))]
    [("sku", "123")]
    [TextElem.mk "\x7b\x7bsku\x7d\x7d" (some "5") (some "5") none none]
    0
    (TextElem.mk "\x7b\x7bsku\x7d\x7d" (some "5") (some "5") none none)
    ("EAN not normalizable: " ++ "123")
    rfl (by decide) (by decide) rfl).1



/-! ## Decimal values (Python float display semantics)

The mapping save / load path serializes Python floats with `str()` and
reads them back with `float()` / pandas numeric parsing.  Observable
behaviour of that cycle on the finite floats the UI produces is exactly
decimal round trip, so serialized numbers are modelled as decimal values
`mant * 10 ^ (-exp)` (plain decimal display; no exponent display, no
inf / nan representation inside `Dec`). -/

/-- A decimal value `mant / 10 ^ exp`. -/
structure Dec where
  mant : Int
  exp : Nat
deriving DecidableEq

/-- Canonical form: zero is `0 / 10^0`, and a nonzero exponent means the
mantissa is not divisible by ten. -/
def decNormalized (d : Dec) : Prop :=
  (d.mant = 0 → d.exp = 0) ∧ (d.exp ≠ 0 → ¬ (10 : Int) ∣ d.mant)

instance (d : Dec) : Decidable (decNormalized d) := by
  unfold decNormalized
  infer_instance

/-- Strip factors of ten from the mantissa into the exponent. -/
def stripTens : Int → Nat → Dec
  | m, 0 => ⟨m, 0⟩
  | m, e + 1 => if (10 : Int) ∣ m then stripTens (m / 10) e else ⟨m, e + 1⟩

/-- Normalize a raw mantissa/exponent pair. -/
def normalizeDec (m : Int) (e : Nat) : Dec :=
  if m = 0 then ⟨0, 0⟩ else stripTens m e

/-- Decimal digits of a natural number, most significant first (fuel is
the number itself plus one, which bounds the digit count). -/
def natDigitsAux : Nat → Nat → List Char
  | 0, _ => []
  | fuel + 1, n =>
      if n < 10 then [digitChar n]
      else natDigitsAux fuel (n / 10) ++ [digitChar (n % 10)]

/-- Decimal digits of a natural number. -/
def natDigits (n : Nat) : List Char := natDigitsAux (n + 1) n

/-- `str()` of an integer. -/
def intStr (i : Int) : List Char :=
  (if i < 0 then ['-'] else []) ++ natDigits i.natAbs

/-- `str()` of a float with value `d`: sign, integer digits, decimal
point, at least one fractional digit (so integral values print with a
trailing `.0`, as Python does). -/
def decScaled (d : Dec) : Int × Nat :=
  if d.exp = 0 then (d.mant * 10, 1) else (d.mant, d.exp)

/-- The padded digit string of the displayed value. -/
def decPad (d : Dec) : List Char :=
  let ds := natDigits (decScaled d).1.natAbs
  List.replicate ((decScaled d).2 + 1 - ds.length) '0' ++ ds

/-- Integer-part digits of the display. -/
def decIntPart (d : Dec) : List Char :=
  (decPad d).take ((decPad d).length - (decScaled d).2)

/-- Fraction-part digits of the display. -/
def decFracPart (d : Dec) : List Char :=
  (decPad d).drop ((decPad d).length - (decScaled d).2)

def printDec (d : Dec) : List Char :=
  (if (decScaled d).1 < 0 then ['-'] else []) ++
    decIntPart d ++ '.' :: decFracPart d

/-- Apply a scientific-notation exponent to a raw decimal. -/
def applyExpDec (m : Int) (e : Nat) (k : Int) : Dec :=
  if (e : Int) ≤ k then normalizeDec (m * 10 ^ (k - e).toNat) 0
  else normalizeDec m ((e : Int) - k).toNat

/-- Incremental parse of a decimal literal (optional sign, digits with
optional fraction - at least one digit overall - and optional
`e`/`E` exponent), returning the value and the remaining input.  This
grammar covers both the numbers Python/pandas `float` parsing accepts on
the serialized forms and JSON number literals.  `decSign` reads the
optional leading sign. -/
def decSign (l : List Char) : Bool × List Char :=
  match l with
  | c :: r => if c = '-' then (true, r) else if c = '+' then (false, r) else (false, c :: r)
  | [] => (false, [])

def parseDecTail (neg : Bool) (ip fp r2 : List Char) : Option (Dec × List Char) :=
  if ip.isEmpty && fp.isEmpty then none
  else
    let m : Int := if neg then -(digitsToNat (ip ++ fp) : Int)
      else (digitsToNat (ip ++ fp) : Int)
    match r2 with
    | c :: r3 =>
        if c = 'e' ∨ c = 'E' then
          match pyFloatExpPart r3 with
          | some (k, r4) => some (applyExpDec m fp.length k, r4)
          | none => none
        else some (normalizeDec m fp.length, c :: r3)
    | [] => some (normalizeDec m fp.length, [])

/-- Mantissa and fraction digits after the sign. -/
def parseDecAfterSign (neg : Bool) (l1 : List Char) : Option (Dec × List Char) :=
  match l1.dropWhile Char.isDigit with
  | '.' :: rr =>
      parseDecTail neg (l1.takeWhile Char.isDigit)
        (rr.takeWhile Char.isDigit) (rr.dropWhile Char.isDigit)
  | _ =>
      parseDecTail neg (l1.takeWhile Char.isDigit) []
        (l1.dropWhile Char.isDigit)

def parseDecCore (l : List Char) : Option (Dec × List Char) :=
  parseDecAfterSign (decSign l).1 (decSign l).2

/-- Full-string decimal parse (used for pandas column inference and the
`float(...)` conversions). -/
def pyReadFloatDec (s : List Char) : Option Dec :=
  match parseDecCore s with
  | some (d, []) => some d
  | _ => none

/-- Full-string integer parse (pandas integer column inference). -/
def parseIntOnly (s : List Char) : Option Int :=
  let sgn := decSign s
  let ds := sgn.2.takeWhile Char.isDigit
  let r := sgn.2.dropWhile Char.isDigit
  if ds.isEmpty || !r.isEmpty then none
  else some (if sgn.1 then -(digitsToNat ds : Int) else (digitsToNat ds : Int))

/-! ### Digit and print/parse lemmas -/

theorem digitsToNat_append_digit (a : List Char) (c : Char) :
    digitsToNat (a ++ [c]) = 10 * digitsToNat a + (c.toNat - 48) := by
  unfold digitsToNat
  rw [List.foldl_append]
  simp [Nat.mul_comm]

theorem digitChar_isDigit {n : Nat} (h : n < 10) : (digitChar n).isDigit := by
  interval_cases n <;> decide

theorem digitChar_toNat {n : Nat} (h : n < 10) : (digitChar n).toNat - 48 = n := by
  interval_cases n <;> decide

theorem natDigitsAux_spec : ∀ fuel n, n < fuel →
    digitsToNat (natDigitsAux fuel n) = n ∧
    (natDigitsAux fuel n) ≠ [] ∧
    ∀ c ∈ natDigitsAux fuel n, c.isDigit := by
  intro fuel
  induction fuel with
  | zero => intro n h; omega
  | succ fuel ih =>
      intro n h
      unfold natDigitsAux
      by_cases hn : n < 10
      · rw [if_pos hn]
        refine ⟨?_, by simp, ?_⟩
        · simpa [digitsToNat] using digitChar_toNat hn
        · intro c hc
          simp at hc
          subst hc
          exact digitChar_isDigit hn
      · rw [if_neg hn]
        have hlt : n / 10 < fuel := by omega
        obtain ⟨hval, hne, hdig⟩ := ih (n / 10) hlt
        refine ⟨?_, by simp, ?_⟩
        · rw [digitsToNat_append_digit, hval, digitChar_toNat (by omega)]
          omega
        · intro c hc
          rw [List.mem_append] at hc
          rcases hc with hc | hc
          · exact hdig c hc
          · simp at hc
            subst hc
            exact digitChar_isDigit (by omega)

theorem natDigits_spec (n : Nat) :
    digitsToNat (natDigits n) = n ∧ natDigits n ≠ [] ∧
    ∀ c ∈ natDigits n, c.isDigit :=
  natDigitsAux_spec (n + 1) n (by omega)

theorem digitsToNat_replicate_zero (k : Nat) (ds : List Char) :
    digitsToNat (List.replicate k '0' ++ ds) = digitsToNat ds := by
  induction k with
  | zero => simp
  | succ k ih =>
      have : List.replicate (k + 1) '0' ++ ds = '0' :: (List.replicate k '0' ++ ds) := by
        simp [List.replicate_succ]
      rw [this]
      unfold digitsToNat at ih ⊢
      simpa using ih



theorem takeWhile_append_of (p : Char → Bool) : ∀ (a b : List Char),
    (∀ c ∈ a, p c) → (∀ c, b.head? = some c → p c = false) →
    (a ++ b).takeWhile p = a ∧ (a ++ b).dropWhile p = b
  | [], b, _, hb => by
      cases b with
      | nil => simp
      | cons c r =>
          have := hb c rfl
          simp [List.takeWhile, List.dropWhile, this]
  | a :: as, b, ha, hb => by
      have hpa : p a = true := ha a (by simp)
      have ih := takeWhile_append_of p as b (fun c hc => ha c (by simp [hc])) hb
      simp [List.takeWhile, List.dropWhile, hpa, ih.1, ih.2]

theorem decSign_digit_head {c : Char} (r : List Char) (h : c.isDigit) :
    decSign (c :: r) = (false, c :: r) := by
  show (if c = '-' then ((true : Bool), r)
    else if c = '+' then ((false : Bool), r) else ((false : Bool), c :: r)) = (false, c :: r)
  rw [if_neg (by intro he; subst he; simp [Char.isDigit] at h),
    if_neg (by intro he; subst he; simp [Char.isDigit] at h)]

/-- `parseDecCore` on input of the canonical printed shape. -/
theorem parseDecCore_shape (neg : Bool) (ip fp rest : List Char)
    (hip : ∀ c ∈ ip, c.isDigit) (hfp : ∀ c ∈ fp, c.isDigit)
    (hipne : ip ≠ [])
    (hrest : ∀ c, rest.head? = some c → (c.isDigit || c = 'e' || c = 'E') = false) :
    parseDecCore ((if neg then ['-'] else []) ++ ip ++ '.' :: (fp ++ rest)) =
      some (normalizeDec
        (if neg then -(digitsToNat (ip ++ fp) : Int) else (digitsToNat (ip ++ fp) : Int))
        fp.length, rest) := by
  obtain ⟨c0, ip', rfl⟩ := List.exists_cons_of_ne_nil hipne
  have hsgn : decSign ((if neg then ['-'] else []) ++ (c0 :: ip') ++ '.' :: (fp ++ rest)) =
      (neg, (c0 :: ip') ++ '.' :: (fp ++ rest)) := by
    cases neg with
    | true => simp [decSign]
    | false =>
        simp only [List.nil_append, if_neg Bool.false_ne_true]
        exact decSign_digit_head _ (hip c0 (by simp))
  have hdot : ∀ c, ('.' :: (fp ++ rest)).head? = some c → Char.isDigit c = false := by
    intro c hc
    simp at hc
    subst hc
    decide
  have hsplit1 := takeWhile_append_of Char.isDigit (c0 :: ip') ('.' :: (fp ++ rest)) hip hdot
  have hsplit2 := takeWhile_append_of Char.isDigit fp rest hfp (by
    intro c hc
    have := hrest c hc
    simp at this
    simp [this.1])
  unfold parseDecCore
  rw [hsgn]
  show parseDecAfterSign neg (c0 :: ip' ++ '.' :: (fp ++ rest)) = _
  unfold parseDecAfterSign
  rw [hsplit1.2]
  show parseDecTail neg
    (List.takeWhile Char.isDigit (c0 :: ip' ++ '.' :: (fp ++ rest)))
    (List.takeWhile Char.isDigit (fp ++ rest))
    (List.dropWhile Char.isDigit (fp ++ rest)) = _
  rw [hsplit1.1, hsplit2.1, hsplit2.2]
  unfold parseDecTail
  rw [if_neg (by simp)]
  dsimp only
  cases rest with
  | nil => rfl
  | cons c r =>
      have hc := hrest c rfl
      simp only [Bool.or_eq_false_iff] at hc
      obtain ⟨⟨_, hce⟩, hcE⟩ := hc
      simp only [decide_eq_false_iff_not] at hce hcE
      show (if c = 'e' ∨ c = 'E' then _ else _) = _
      rw [if_neg (by tauto)]



theorem decPad_length (d : Dec) : (decScaled d).2 + 1 ≤ (decPad d).length := by
  unfold decPad
  rw [List.length_append, List.length_replicate]
  have := (natDigits_spec (decScaled d).1.natAbs).2.1
  have hpos : 1 ≤ (natDigits (decScaled d).1.natAbs).length :=
    List.length_pos.mpr this
  omega

theorem decPad_digits (d : Dec) : ∀ c ∈ decPad d, c.isDigit := by
  unfold decPad
  intro c hc
  rw [List.mem_append] at hc
  rcases hc with hc | hc
  · rw [List.eq_of_mem_replicate hc]
    decide
  · exact (natDigits_spec _).2.2 c hc

theorem decIntPart_digits (d : Dec) : ∀ c ∈ decIntPart d, c.isDigit :=
  fun c hc => decPad_digits d c (List.take_subset _ _ hc)

theorem decFracPart_digits (d : Dec) : ∀ c ∈ decFracPart d, c.isDigit :=
  fun c hc => decPad_digits d c (List.drop_subset _ _ hc)

theorem decIntPart_ne_nil (d : Dec) : decIntPart d ≠ [] := by
  have h := decPad_length d
  unfold decIntPart
  intro hcon
  have := congrArg List.length hcon
  rw [List.length_take] at this
  simp at this
  omega

theorem decFracPart_length (d : Dec) :
    (decFracPart d).length = (decScaled d).2 := by
  have h := decPad_length d
  unfold decFracPart
  rw [List.length_drop]
  omega

theorem decParts_value (d : Dec) :
    digitsToNat (decIntPart d ++ decFracPart d) = (decScaled d).1.natAbs := by
  unfold decIntPart decFracPart
  rw [List.take_append_drop]
  unfold decPad
  rw [digitsToNat_replicate_zero]
  exact (natDigits_spec _).1

theorem normalizeDec_decScaled (d : Dec) (hn : decNormalized d) :
    normalizeDec (decScaled d).1 (decScaled d).2 = d := by
  obtain ⟨m, e⟩ := d
  obtain ⟨hz, hd⟩ := hn
  simp only at hz hd
  unfold decScaled normalizeDec
  cases e with
  | zero =>
      simp only [reduceIte]
      by_cases hm : m = 0
      · subst hm
        simp
      · rw [if_neg (by simpa using hm)]
        unfold stripTens
        rw [if_pos ⟨m, by ring⟩]
        have : m * 10 / 10 = m := Int.mul_ediv_cancel m (by norm_num)
        rw [this]
        rfl
  | succ k =>
      simp only [Nat.succ_ne_zero, reduceIte]
      have hm : m ≠ 0 := by
        intro hcon
        exact Nat.succ_ne_zero k (hz hcon)
      rw [if_neg hm]
      unfold stripTens
      rw [if_neg (hd (Nat.succ_ne_zero k))]

/-- Key round trip: parsing the printed form of a normalized decimal
recovers it exactly (with any non-numeric tail untouched). -/
theorem parseDecCore_printDec (d : Dec) (hn : decNormalized d)
    (rest : List Char)
    (hrest : ∀ c, rest.head? = some c →
      (c.isDigit || c = 'e' || c = 'E') = false) :
    parseDecCore (printDec d ++ rest) = some (d, rest) := by
  have hshape := fun (b : Bool) => parseDecCore_shape b (decIntPart d)
    (decFracPart d) rest (decIntPart_digits d) (decFracPart_digits d)
    (decIntPart_ne_nil d) hrest
  have hassoc : printDec d ++ rest =
      (if (decScaled d).1 < 0 then ['-'] else []) ++
        decIntPart d ++ '.' :: (decFracPart d ++ rest) := by
    unfold printDec
    simp
  by_cases hneg : (decScaled d).1 < 0
  · have h1 := hshape true
    simp only [if_pos rfl, reduceIte] at h1
    rw [hassoc, if_pos hneg]
    simp only [List.append_assoc] at h1 ⊢
    rw [h1]
    rw [decParts_value, decFracPart_length]
    have habs : -((decScaled d).1.natAbs : Int) = (decScaled d).1 := by
      omega
    rw [habs, normalizeDec_decScaled d hn]
  · have h1 := hshape false
    simp only [Bool.false_eq_true, reduceIte] at h1
    rw [hassoc, if_neg hneg]
    simp only [List.append_assoc, List.nil_append] at h1 ⊢
    rw [h1]
    rw [decParts_value, decFracPart_length]
    have habs : ((decScaled d).1.natAbs : Int) = (decScaled d).1 := by
      omega
    rw [habs, normalizeDec_decScaled d hn]

/-- Every character of a printed decimal is a digit, `-` or `.`. -/
theorem printDec_chars (d : Dec) :
    ∀ c ∈ printDec d, (c.isDigit || c = '-' || c = '.') = true := by
  intro c hc
  unfold printDec at hc
  rw [List.mem_append] at hc
  rcases hc with hc | hc
  · rw [List.mem_append] at hc
    rcases hc with hc | hc
    · by_cases hneg : (decScaled d).1 < 0
      · rw [if_pos hneg] at hc
        simp at hc
        simp [hc]
      · rw [if_neg hneg] at hc
        simp at hc
    · simp [decIntPart_digits d c hc]
  · simp at hc
    rcases hc with hc | hc
    · simp [hc]
    · simp [decFracPart_digits d c hc]

/-- A printed decimal contains a decimal point, so integer parsing
rejects it. -/
theorem parseIntOnly_printDec (d : Dec) :
    parseIntOnly (printDec d) = none := by
  have hdot : ∀ c, ('.' :: decFracPart d).head? = some c →
      Char.isDigit c = false := by
    intro c hc
    simp at hc
    subst hc
    decide
  have hsplit := takeWhile_append_of Char.isDigit (decIntPart d)
    ('.' :: decFracPart d) (decIntPart_digits d) hdot
  obtain ⟨c0, ip', hip0⟩ := List.exists_cons_of_ne_nil (decIntPart_ne_nil d)
  unfold parseIntOnly printDec
  by_cases hneg : (decScaled d).1 < 0
  · rw [if_pos hneg]
    have hsgn : decSign ('-' :: (decIntPart d ++ '.' :: decFracPart d)) =
        (true, decIntPart d ++ '.' :: decFracPart d) := by
      simp [decSign]
    simp only [List.cons_append, List.nil_append] at hsgn ⊢
    rw [hsgn]
    simp only [hsplit.1, hsplit.2]
    rw [if_pos (by simp)]
  · rw [if_neg hneg]
    have hsgn : decSign (decIntPart d ++ '.' :: decFracPart d) =
        (false, decIntPart d ++ '.' :: decFracPart d) := by
      rw [hip0]
      simp only [List.cons_append]
      exact decSign_digit_head _ (decIntPart_digits d c0 (by rw [hip0]; simp))
    simp only [List.nil_append]
    rw [hsgn]
    simp only [hsplit.1, hsplit.2]
    rw [if_pos (by simp)]



/-! ## Mapping document round trip (`app.py` mapping download / upload) -/

/-- One persisted mapping entry (the dict the UI builds per placeholder).
Fields are optional as in any Python dict; numeric fields are Python
floats: `none` inside the inner option models NaN, a `Dec` models any
finite float through its display value. -/
structure MappingEntry where
  col : Option String
  align : Option String
  dx : Option (Option Dec)
  dy : Option (Option Dec)
  scale : Option (Option Dec)
  type : Option String
  height_mm : Option (Option Dec)
deriving DecidableEq

/-- `str()` of a Python float. -/
def pyFloatStr (v : Option Dec) : List Char :=
  match v with
  | none => "nan".data
  | some d => printDec d

/-- A numeric field in the CSV writer: `cfg.get(k, dflt)` where the
literal defaults `0`, `1.0`, `25.0` print as shown in the f-string. -/
def dumpNumField (v : Option (Option Dec)) (dflt : List Char) : List Char :=
  match v with
  | none => dflt
  | some pf => pyFloatStr pf

/-- Join fields with a separator character. -/
def joinChar (sep : Char) : List (List Char) → List Char
  | [] => []
  | [f] => f
  | f :: fs => f ++ sep :: joinChar sep fs

/-- The header row of the tabular mapping document. -/
def csvHeader : List Char := "placeholder,col,align,dx,dy,scale,type,height_mm".data

/-- One data row of the mapping CSV:
`f"{ph},{cfg.get('col','')},{cfg.get('align','Left')},{cfg.get('dx',0)},{cfg.get('dy',0)},{cfg.get('scale',1.0)},{cfg.get('type','Text')},{cfg.get('height_mm',25.0)}"`,
as its comma-separated field list and the joined line. -/
def rowFields (ph : String) (c : MappingEntry) : List (List Char) :=
  [ph.data, (c.col.getD "").data, (c.align.getD "Left").data,
    dumpNumField c.dx "0".data, dumpNumField c.dy "0".data,
    dumpNumField c.scale "1.0".data, (c.type.getD "Text").data,
    dumpNumField c.height_mm "25.0".data]

def dumpRow (ph : String) (c : MappingEntry) : List Char :=
  joinChar ',' (rowFields ph c)

/-- The mapping CSV download: header line then one line per entry. -/
def dumpMappingCSV (m : List (String × MappingEntry)) : List Char :=
  csvHeader ++ '\n' :: (m.map (fun p => dumpRow p.1 p.2 ++ ['\n'])).flatten

/-- Split on a separator character, keeping empty fields (fuel bounds
the number of fields by the input length plus one). -/
def splitOnCharAux (sep : Char) : Nat → List Char → List (List Char)
  | 0, _ => []
  | fuel + 1, l =>
      let fld := l.takeWhile (fun c => c != sep)
      match l.dropWhile (fun c => c != sep) with
      | [] => [fld]
      | _ :: rest => fld :: splitOnCharAux sep fuel rest

/-- Split on a separator character. -/
def splitOnChar (sep : Char) (l : List Char) : List (List Char) :=
  splitOnCharAux sep (l.length + 1) l

/-- pandas' default `na_values`: cells reading as NaN. -/
def naLits : List (List Char) :=
  ["".data, "#N/A".data, "#N/A N/A".data, "#NA".data, "-1.#IND".data,
   "-1.#QNAN".data, "-NaN".data, "-nan".data, "1.#IND".data, "1.#QNAN".data,
   "<NA>".data, "N/A".data, "NA".data, "NULL".data, "NaN".data, "None".data,
   "n/a".data, "nan".data, "null".data]

/-- pandas' boolean literals. -/
def boolTrueLits : List (List Char) := ["True".data, "TRUE".data, "true".data]

/-- pandas' boolean literals (false spellings). -/
def boolFalseLits : List (List Char) :=
  ["False".data, "FALSE".data, "false".data]

/-- A raw cell: `none` is NaN (an `na_values` spelling or a padded
missing trailing field). -/
def csvCell (f : List Char) : Option (List Char) :=
  if f ∈ naLits then none else some f

/-- The dtype pandas infers for a column. -/
inductive ColKind where
  | int
  | float
  | bool
  | obj
deriving DecidableEq

/-- pandas column dtype inference: all integer cells (no NaN) make an
integer column; all numeric-or-NaN cells make a float column; all
boolean literals make a bool column; anything else is object. -/
def colKindOf (cells : List (Option (List Char))) : ColKind :=
  if cells.all (fun c => match c with
      | some f => (parseIntOnly f).isSome
      | none => false) then .int
  else if cells.all (fun c => match c with
      | some f => (pyReadFloatDec f).isSome
      | none => true) then .float
  else if cells.all (fun c => match c with
      | some f => f ∈ boolTrueLits || f ∈ boolFalseLits
      | none => false) then .bool
  else .obj

/-- A typed cell value as the row loop sees it. -/
inductive PyCell where
  | nan
  | int (i : Int)
  | float (d : Dec)
  | bool (b : Bool)
  | str (s : List Char)
deriving DecidableEq

/-- Interpret a raw cell at the column's dtype. -/
def typedCell (k : ColKind) (c : Option (List Char)) : PyCell :=
  match c with
  | none => .nan
  | some f =>
    match k with
    | .int =>
        match parseIntOnly f with
        | some i => .int i
        | none => .nan
    | .float =>
        match pyReadFloatDec f with
        | some d => .float d
        | none => .nan
    | .bool => .bool (f ∈ boolTrueLits)
    | .obj => .str f

/-- `str(value)`. -/
def cellStr (c : PyCell) : List Char :=
  match c with
  | .nan => "nan".data
  | .int i => intStr i
  | .float d => printDec d
  | .bool b => if b then "True".data else "False".data
  | .str s => s

/-- Python truthiness of the cell value (NaN is truthy). -/
def cellTruthy (c : PyCell) : Bool :=
  match c with
  | .nan => true
  | .int i => i != 0
  | .float d => d.mant != 0
  | .bool b => b
  | .str s => !s.isEmpty

/-- `float(value or dflt)`: falsy values give the default; NaN stays
NaN; strings go through `float()` whose `ValueError` aborts the whole
load. -/
def cellFloat (dflt : Dec) (c : PyCell) : Except Unit (Option Dec) :=
  if !cellTruthy c then .ok (some dflt)
  else match c with
  | .nan => .ok none
  | .int i => .ok (some (normalizeDec i 0))
  | .float d => .ok (some d)
  | .bool _ => .ok (some ⟨1, 0⟩)
  | .str s =>
      match pyReadFloatDec (stripChars s) with
      | some d => .ok (some d)
      | none => .error ()

/-- One iteration of the CSV restore loop: build the placeholder name
(`str(r.get("placeholder") or ... or "")`, skipping falsy names) and the
entry dict; a `float()` failure aborts the load. -/
def buildRow (kinds : List ColKind) (r : List (Option (List Char))) :
    Except Unit (Option (String × MappingEntry)) :=
  let cell := fun (j : Nat) => typedCell (kinds.getD j .obj) (r.getD j none)
  let ph := if cellTruthy (cell 0) then cellStr (cell 0) else []
  if ph.isEmpty then .ok none
  else do
    let dx ← cellFloat ⟨0, 0⟩ (cell 3)
    let dy ← cellFloat ⟨0, 0⟩ (cell 4)
    let sc ← cellFloat ⟨1, 0⟩ (cell 5)
    let hm ← cellFloat ⟨25, 0⟩ (cell 7)
    pure (some (String.mk ph,
      { col := some (String.mk (cellStr (cell 1))),
        align := some (String.mk (cellStr (cell 2))),
        dx := some dx, dy := some dy, scale := some sc,
        type := some (String.mk (cellStr (cell 6))),
        height_mm := some hm }))

/-- The CSV mapping restore: pandas `read_csv` (modelled for the
canonical header) followed by the row loop.  When the first data row has
more fields than the header, pandas does not fail: it uses the leftmost
extra columns as an implicit (multi-)index, so every row's fields shift
left by that amount before the named columns are read.  The expected
field count is then fixed by the first data row; a row with more fields
than that raises a tokenizing error.  `none` covers every path on which
the session mapping is not replaced: unreadable document, a tokenizing
error, a `float()` failure, or an empty resulting mapping. -/
def loadMappingCSV (doc : List Char) : Option (List (String × MappingEntry)) :=
  let lines := (splitOnChar '\n' doc).filter (fun l => !l.isEmpty)
  match lines with
  | [] => none
  | header :: rows =>
    if header = csvHeader then
      let fieldRows := rows.map (splitOnChar ',')
      match fieldRows with
      | [] => none
      | fr0 :: _ =>
        let expected := max 8 fr0.length
        let extra := expected - 8
        if fieldRows.all (fun r => r.length ≤ expected) then
          let cellRows := fieldRows.map
            (fun r => ((r.drop extra).map csvCell) ++
              List.replicate (8 - (r.drop extra).length) none)
          let kinds := (List.range 8).map
            (fun j => colKindOf (cellRows.map (fun r => r.getD j none)))
          match cellRows.mapM (buildRow kinds) with
          | .error _ => none
          | .ok built =>
              let newmap := built.filterMap id
              if newmap.isEmpty then none else some newmap
        else none
    else none



/-! ### Split / join lemmas for the round trip -/

theorem splitOnCharAux_irrel (sep : Char) : ∀ fuel1 fuel2 l,
    l.length < fuel1 → l.length < fuel2 →
    splitOnCharAux sep fuel1 l = splitOnCharAux sep fuel2 l := by
  intro fuel1
  induction fuel1 with
  | zero => intro fuel2 l h1 _; omega
  | succ fuel1 ih =>
      intro fuel2 l h1 h2
      cases fuel2 with
      | zero => omega
      | succ fuel2 =>
          unfold splitOnCharAux
          cases hdrop : l.dropWhile (fun c => c != sep) with
          | nil => rfl
          | cons x rest =>
              have hle : rest.length < l.length := by
                have := (List.dropWhile_sublist
                  (fun c => c != sep) (l := l)).length_le
                rw [hdrop] at this
                simp at this
                omega
              dsimp only
              rw [ih fuel2 rest (by omega) (by omega)]

theorem splitOnChar_append_cons (sep : Char) (a rest : List Char)
    (ha : ∀ c ∈ a, c ≠ sep) :
    splitOnChar sep (a ++ sep :: rest) = a :: splitOnChar sep rest := by
  have hsplit := takeWhile_append_of (fun c => c != sep) a (sep :: rest)
    (fun c hc => by simpa using ha c hc) (by intro c hc; simp at hc; simp [hc])
  unfold splitOnChar
  conv_lhs => rw [show (a ++ sep :: rest).length + 1 =
    (a.length + rest.length + 1) + 1 by simp; omega]
  unfold splitOnCharAux
  rw [hsplit.1, hsplit.2]
  dsimp only
  rw [splitOnCharAux_irrel sep (a.length + rest.length + 1) (rest.length + 1)
    rest (by omega) (by omega)]
  rfl

theorem splitOnChar_no_sep (sep : Char) (a : List Char)
    (ha : ∀ c ∈ a, c ≠ sep) :
    splitOnChar sep a = [a] := by
  have h1 : a.takeWhile (fun c => c != sep) = a :=
    List.takeWhile_eq_self_iff.mpr (fun c hc => by simpa using ha c hc)
  have h2 : a.dropWhile (fun c => c != sep) = [] :=
    List.dropWhile_eq_nil_iff.mpr (fun c hc => by simpa using ha c hc)
  unfold splitOnChar splitOnCharAux
  rw [h1, h2]

theorem splitOnChar_joinChar (sep : Char) : ∀ fs : List (List Char),
    fs ≠ [] → (∀ f ∈ fs, ∀ c ∈ f, c ≠ sep) →
    splitOnChar sep (joinChar sep fs) = fs
  | [], h, _ => absurd rfl h
  | [f], _, hf => by
      unfold joinChar
      exact splitOnChar_no_sep sep f (hf f (by simp))
  | f :: g :: fs, _, hf => by
      show splitOnChar sep (f ++ sep :: joinChar sep (g :: fs)) = _
      rw [splitOnChar_append_cons sep f _ (hf f (by simp))]
      rw [splitOnChar_joinChar sep (g :: fs) (by simp)
        (fun f' hf' => hf f' (by simp [hf']))]

theorem mem_joinChar (sep : Char) : ∀ (fs : List (List Char)) (c : Char),
    c ∈ joinChar sep fs → c = sep ∨ ∃ f ∈ fs, c ∈ f
  | [], c, h => by simp [joinChar] at h
  | [f], c, h => by
      right
      exact ⟨f, by simp, by simpa [joinChar] using h⟩
  | f :: g :: fs, c, h => by
      rw [show joinChar sep (f :: g :: fs) = f ++ sep :: joinChar sep (g :: fs)
        from rfl] at h
      simp only [List.mem_append, List.mem_cons] at h
      rcases h with h | h | h
      · exact Or.inr ⟨f, by simp, h⟩
      · exact Or.inl h
      · rcases mem_joinChar sep (g :: fs) c h with h | ⟨f', hf', hc⟩
        · exact Or.inl h
        · exact Or.inr ⟨f', by simp at hf'; simp [hf'], hc⟩

theorem splitOnChar_nil (sep : Char) : splitOnChar sep [] = [[]] := rfl

/-- Lines of the dumped CSV body. -/
theorem splitOnChar_flatten_rows (sep : Char) :
    ∀ rows : List (List Char), (∀ r ∈ rows, ∀ c ∈ r, c ≠ sep) →
    splitOnChar sep ((rows.map (fun r => r ++ [sep])).flatten) =
      rows ++ [[]]
  | [], _ => splitOnChar_nil sep
  | r :: rows, h => by
      have : ((r :: rows).map (fun r => r ++ [sep])).flatten =
          r ++ sep :: (rows.map (fun r => r ++ [sep])).flatten := by
        simp
      rw [this, splitOnChar_append_cons sep r _ (h r (by simp)),
        splitOnChar_flatten_rows sep rows (fun r' hr' => h r' (by simp [hr']))]
      rfl



/-! ### Per-row facts for the round trip -/

theorem printDec_ne_nil (d : Dec) : printDec d ≠ [] := by
  unfold printDec
  intro h
  obtain ⟨h1, h2⟩ := List.append_eq_nil.mp h
  exact List.cons_ne_nil _ _ h2

theorem printedChar_ne {c : Char}
    (h : (c.isDigit || c = '-' || c = '.') = true) : c ≠ ',' ∧ c ≠ '\n' := by
  constructor <;> (intro he; subst he; simp at h)

theorem pyReadFloatDec_printDec (d : Dec) (hn : decNormalized d) :
    pyReadFloatDec (printDec d) = some d := by
  unfold pyReadFloatDec
  rw [show printDec d = printDec d ++ [] by simp,
    parseDecCore_printDec d hn [] (by intro c hc; simp at hc)]

theorem printDec_not_na (d : Dec) : printDec d ∉ naLits := by
  intro hmem
  have hbad : ∀ l ∈ naLits, l = [] ∨
      ∃ c ∈ l, (c.isDigit || c = '-' || c = '.') = false := by decide
  rcases hbad (printDec d) hmem with h | ⟨c, hc, hfalse⟩
  · exact printDec_ne_nil d h
  · rw [printDec_chars d c hc] at hfalse
    simp at hfalse

theorem printDec_not_boolTrue (d : Dec) : printDec d ∉ boolTrueLits := by
  intro hmem
  have hbad : ∀ l ∈ boolTrueLits,
      ∃ c ∈ l, (c.isDigit || c = '-' || c = '.') = false := by decide
  obtain ⟨c, hc, hfalse⟩ := hbad (printDec d) hmem
  rw [printDec_chars d c hc] at hfalse
  simp at hfalse

theorem printDec_not_boolFalse (d : Dec) : printDec d ∉ boolFalseLits := by
  intro hmem
  have hbad : ∀ l ∈ boolFalseLits,
      ∃ c ∈ l, (c.isDigit || c = '-' || c = '.') = false := by decide
  obtain ⟨c, hc, hfalse⟩ := hbad (printDec d) hmem
  rw [printDec_chars d c hc] at hfalse
  simp at hfalse

/-- Text fields safe for the tabular round trip: nonempty, free of the
separator characters, not a pandas NA or boolean literal, and not
parseable as a number. -/
def csvSafeText (s : List Char) : Prop :=
  s ≠ [] ∧
  (∀ c ∈ s, c ≠ ',' ∧ c ≠ '\n') ∧
  s ∉ naLits ∧ s ∉ boolTrueLits ∧ s ∉ boolFalseLits ∧
  parseIntOnly s = none ∧ pyReadFloatDec s = none

/-- The amended claim's restriction on one mapping entry: all seven
fields present, text fields `csvSafeText`, numeric fields finite
(non-NaN) normalized decimals, with nonzero scale and height (zero is
falsy in Python, so `or`-defaulting would rewrite them on load). -/
def entryShape (p : String × MappingEntry) : Prop :=
  ∃ col al ty dx dy sc hm,
    p.2 = ⟨some col, some al, some (some dx), some (some dy), some (some sc),
           some ty, some (some hm)⟩ ∧
    csvSafeText p.1.data ∧ csvSafeText col.data ∧ csvSafeText al.data ∧
    csvSafeText ty.data ∧
    decNormalized dx ∧ decNormalized dy ∧
    decNormalized sc ∧ sc.mant ≠ 0 ∧ decNormalized hm ∧ hm.mant ≠ 0

/-- The column dtypes of a dumped mapping document. -/
def stdKinds : List ColKind :=
  [.obj, .obj, .obj, .float, .float, .float, .obj, .float]

theorem rowFields_sep_free (p : String × MappingEntry) (h : entryShape p) :
    ∀ f ∈ rowFields p.1 p.2, ∀ c ∈ f, c ≠ ',' ∧ c ≠ '\n' := by
  obtain ⟨col, al, ty, dx, dy, sc, hm, he, hph, hcol, hal, hty, _⟩ := h
  rw [he]
  intro f hf c hc
  simp only [rowFields, dumpNumField, pyFloatStr, Option.getD_some,
    List.mem_cons, List.not_mem_nil, or_false] at hf
  rcases hf with rfl | rfl | rfl | rfl | rfl | rfl | rfl | rfl
  · exact hph.2.1 c hc
  · exact hcol.2.1 c hc
  · exact hal.2.1 c hc
  · exact printedChar_ne (printDec_chars dx c hc)
  · exact printedChar_ne (printDec_chars dy c hc)
  · exact printedChar_ne (printDec_chars sc c hc)
  · exact hty.2.1 c hc
  · exact printedChar_ne (printDec_chars hm c hc)

theorem rowFields_not_na (p : String × MappingEntry) (h : entryShape p) :
    ∀ f ∈ rowFields p.1 p.2, f ∉ naLits := by
  obtain ⟨col, al, ty, dx, dy, sc, hm, he, hph, hcol, hal, hty, _⟩ := h
  rw [he]
  intro f hf
  simp only [rowFields, dumpNumField, pyFloatStr, Option.getD_some,
    List.mem_cons, List.not_mem_nil, or_false] at hf
  rcases hf with rfl | rfl | rfl | rfl | rfl | rfl | rfl | rfl
  · exact hph.2.2.1
  · exact hcol.2.2.1
  · exact hal.2.2.1
  · exact printDec_not_na dx
  · exact printDec_not_na dy
  · exact printDec_not_na sc
  · exact hty.2.2.1
  · exact printDec_not_na hm

theorem rowFields_length (p : String × MappingEntry) :
    (rowFields p.1 p.2).length = 8 := rfl

theorem rowFields_ne_nil_first (p : String × MappingEntry) (h : entryShape p) :
    dumpRow p.1 p.2 ≠ [] := by
  obtain ⟨col, al, ty, dx, dy, sc, hm, he, hph, _⟩ := h
  rw [he]
  show p.1.data ++ ',' :: _ ≠ []
  intro hcontra
  exact absurd (List.append_eq_nil.mp hcontra).2 (by simp)



theorem dec_zero_of_norm {d : Dec} (hn : decNormalized d) (h0 : d.mant = 0) :
    d = ⟨0, 0⟩ := by
  obtain ⟨m, e⟩ := d
  simp only at h0
  subst h0
  have he : e = 0 := hn.1 rfl
  subst he
  rfl

theorem cellFloat_float_norm (dflt : Dec) (d : Dec) (hn : decNormalized d)
    (hz : d.mant = 0 → dflt = ⟨0, 0⟩) :
    cellFloat dflt (.float d) = .ok (some d) := by
  unfold cellFloat cellTruthy
  by_cases h0 : d.mant = 0
  · rw [if_pos (by simp [h0]), hz h0, dec_zero_of_norm hn h0]
  · rw [if_neg (by simp [h0])]

theorem colKindOf_obj (cells : List (Option (List Char))) (hne : cells ≠ [])
    (h : ∀ c ∈ cells, ∃ f, c = some f ∧ parseIntOnly f = none ∧
      pyReadFloatDec f = none ∧ f ∉ boolTrueLits ∧ f ∉ boolFalseLits) :
    colKindOf cells = .obj := by
  obtain ⟨c0, cells', rfl⟩ := List.exists_cons_of_ne_nil hne
  obtain ⟨f0, rfl, hint, hfloat, hbt, hbf⟩ := h _ (List.mem_cons_self _ _)
  unfold colKindOf
  rw [if_neg (by simp [List.all_cons, hint]),
    if_neg (by simp [List.all_cons, hfloat]),
    if_neg (by simp [List.all_cons, hbt, hbf])]

theorem colKindOf_float (cells : List (Option (List Char))) (hne : cells ≠ [])
    (h : ∀ c ∈ cells, ∃ f d, c = some f ∧ parseIntOnly f = none ∧
      pyReadFloatDec f = some d) :
    colKindOf cells = .float := by
  have hne' : ∃ c0 cells', cells = c0 :: cells' :=
    match cells, hne with
    | c0 :: cells', _ => ⟨c0, cells', rfl⟩
  obtain ⟨c0, cells', rfl⟩ := hne'
  obtain ⟨f0, d0, rfl, hint, _⟩ := h _ (List.mem_cons_self _ _)
  unfold colKindOf
  rw [if_neg (by simp [List.all_cons, hint]), if_pos]
  rw [List.all_eq_true]
  intro c hc
  obtain ⟨f, d, rfl, _, hfl⟩ := h c hc
  simp [hfl]

theorem buildRow_roundtrip (p : String × MappingEntry) (h : entryShape p) :
    buildRow stdKinds ((rowFields p.1 p.2).map some) = .ok (some p) := by
  obtain ⟨ph, entry⟩ := p
  obtain ⟨col, al, ty, dx, dy, sc, hm, he, hph, hcol, hal, hty,
    hdx, hdy, hsc, hscnz, hhm, hhmnz⟩ := h
  simp only at he
  subst he
  have hfields : (rowFields ph ⟨some col, some al, some (some dx),
      some (some dy), some (some sc), some ty, some (some hm)⟩).map some =
      [some ph.data, some col.data, some al.data, some (printDec dx),
       some (printDec dy), some (printDec sc), some ty.data,
       some (printDec hm)] := rfl
  rw [hfields]
  unfold buildRow
  dsimp only [List.getD_cons_zero, List.getD_cons_succ, stdKinds]
  have hcell0 : typedCell ColKind.obj (some ph.data) = .str ph.data := rfl
  have hcell3 : typedCell ColKind.float (some (printDec dx)) = .float dx := by
    unfold typedCell
    dsimp only
    rw [pyReadFloatDec_printDec dx hdx]
  have hcell4 : typedCell ColKind.float (some (printDec dy)) = .float dy := by
    unfold typedCell
    dsimp only
    rw [pyReadFloatDec_printDec dy hdy]
  have hcell5 : typedCell ColKind.float (some (printDec sc)) = .float sc := by
    unfold typedCell
    dsimp only
    rw [pyReadFloatDec_printDec sc hsc]
  have hcell7 : typedCell ColKind.float (some (printDec hm)) = .float hm := by
    unfold typedCell
    dsimp only
    rw [pyReadFloatDec_printDec hm hhm]
  rw [hcell0, hcell3, hcell4, hcell5, hcell7]
  have htruthy : cellTruthy (.str ph.data) = true := by
    unfold cellTruthy
    simp [List.isEmpty_eq_false.mpr hph.1]
  rw [htruthy]
  simp only [reduceIte]
  rw [if_neg (by simpa [cellStr] using hph.1)]
  rw [cellFloat_float_norm ⟨0, 0⟩ dx hdx (fun _ => rfl),
    cellFloat_float_norm ⟨0, 0⟩ dy hdy (fun _ => rfl),
    cellFloat_float_norm ⟨1, 0⟩ sc hsc (fun h0 => absurd h0 hscnz),
    cellFloat_float_norm ⟨25, 0⟩ hm hhm (fun h0 => absurd h0 hhmnz)]
  rfl



theorem mapM_buildRow_ok : ∀ (m : List (String × MappingEntry)),
    (∀ p ∈ m, entryShape p) →
    (m.map (fun p => (rowFields p.1 p.2).map some)).mapM (buildRow stdKinds) =
      .ok (m.map some)
  | [], _ => rfl
  | p :: m, h => by
      rw [List.map_cons, List.mapM_cons,
        buildRow_roundtrip p (h p (List.mem_cons_self _ _)),
        mapM_buildRow_ok m (fun q hq => h q (List.mem_cons_of_mem _ hq))]
      rfl

/-- CSV round trip under the amended claim's hypotheses. -/
theorem csv_roundtrip (m : List (String × MappingEntry)) (hne : m ≠ [])
    (hsafe : ∀ p ∈ m, entryShape p) :
    loadMappingCSV (dumpMappingCSV m) = some m := by
  have hnorow : ∀ r ∈ m.map (fun p => dumpRow p.1 p.2), ∀ c ∈ r, c ≠ '\n' := by
    intro r hr c hc
    obtain ⟨p, hp, rfl⟩ := List.mem_map.mp hr
    rcases mem_joinChar ',' _ c hc with rfl | ⟨f, hf, hcf⟩
    · decide
    · exact ((rowFields_sep_free p (hsafe p hp)) f hf c hcf).2
  have hlines : splitOnChar '\n' (dumpMappingCSV m) =
      csvHeader :: (m.map (fun p => dumpRow p.1 p.2) ++ [[]]) := by
    unfold dumpMappingCSV
    rw [show (m.map (fun p => dumpRow p.1 p.2 ++ ['\n'])) =
      ((m.map (fun p => dumpRow p.1 p.2)).map (fun r => r ++ ['\n'])) by
        rw [List.map_map]
        rfl]
    rw [splitOnChar_append_cons '\n' csvHeader _ (by decide),
      splitOnChar_flatten_rows '\n' _ hnorow]
  have hrowsne : ∀ r ∈ m.map (fun p => dumpRow p.1 p.2), (!r.isEmpty) = true := by
    intro r hr
    obtain ⟨p, hp, rfl⟩ := List.mem_map.mp hr
    simp [List.isEmpty_eq_false.mpr (rowFields_ne_nil_first p (hsafe p hp))]
  have hfilter : ((splitOnChar '\n' (dumpMappingCSV m)).filter
      (fun l => !l.isEmpty)) = csvHeader :: m.map (fun p => dumpRow p.1 p.2) := by
    rw [hlines, List.filter_cons, if_pos (by decide), List.filter_append,
      List.filter_eq_self.mpr hrowsne]
    simp
  unfold loadMappingCSV
  rw [hfilter]
  dsimp only
  rw [if_pos rfl]
  have hfieldRows : (m.map (fun p => dumpRow p.1 p.2)).map (splitOnChar ',') =
      m.map (fun p => rowFields p.1 p.2) := by
    rw [List.map_map]
    apply List.map_congr_left
    intro p hp
    exact splitOnChar_joinChar ',' _ (by simp [rowFields])
      (fun f hf c hc => ((rowFields_sep_free p (hsafe p hp)) f hf c hc).1)
  rw [hfieldRows]
  obtain ⟨q, qs, hm⟩ : ∃ q qs, m = q :: qs := by
    cases m with
    | nil => exact absurd rfl hne
    | cons q qs => exact ⟨q, qs, rfl⟩
  have hfr : m.map (fun p => rowFields p.1 p.2) =
      rowFields q.1 q.2 :: qs.map (fun p => rowFields p.1 p.2) := by
    rw [hm]
    rfl
  rw [hfr]
  dsimp only
  simp only [rowFields_length, Nat.max_self, Nat.sub_self, List.drop_zero]
  rw [← hfr]
  rw [if_pos (by
    rw [List.all_eq_true]
    intro r hr
    obtain ⟨p, _, rfl⟩ := List.mem_map.mp hr
    rw [rowFields_length p]
    decide)]
  have hcells : (m.map (fun p => rowFields p.1 p.2)).map
      (fun r => (r.map csvCell) ++ List.replicate (8 - r.length) none) =
      m.map (fun p => (rowFields p.1 p.2).map some) := by
    rw [List.map_map]
    apply List.map_congr_left
    intro p hp
    rw [Function.comp_apply, rowFields_length p]
    simp only [Nat.sub_self, List.replicate_zero, List.append_nil]
    apply List.map_congr_left
    intro f hf
    unfold csvCell
    rw [if_neg (rowFields_not_na p (hsafe p hp) f hf)]
  rw [hcells]
  have hmne : m.map (fun p => (rowFields p.1 p.2).map some) ≠ [] := by
    simp [hne]
  have hkinds : (List.range 8).map (fun j =>
      colKindOf ((m.map (fun p => (rowFields p.1 p.2).map some)).map
        (fun r => r.getD j none))) = stdKinds := by
    have hr8 : List.range 8 = [0, 1, 2, 3, 4, 5, 6, 7] := rfl
    rw [hr8]
    simp only [List.map_cons, List.map_nil, List.map_map]
    have hobj : ∀ (j : Nat) (fsel : (String × MappingEntry) → List Char),
        (∀ p ∈ m, ((rowFields p.1 p.2).map some).getD j none = some (fsel p)) →
        (∀ p ∈ m, csvSafeText (fsel p)) →
        colKindOf (m.map ((fun r => r.getD j none) ∘
          (fun p => (rowFields p.1 p.2).map some))) = .obj := by
      intro j fsel hj hsafep
      apply colKindOf_obj _ (by simp [hne])
      intro c hc
      obtain ⟨p, hp, rfl⟩ := List.mem_map.mp hc
      obtain ⟨_, _, hna, hbt, hbf, hint, hfl⟩ := hsafep p hp
      exact ⟨fsel p, hj p hp, hint, hfl, hbt, hbf⟩
    have hflt : ∀ (j : Nat) (dsel : (String × MappingEntry) → Dec),
        (∀ p ∈ m, ((rowFields p.1 p.2).map some).getD j none =
          some (printDec (dsel p))) →
        (∀ p ∈ m, decNormalized (dsel p)) →
        colKindOf (m.map ((fun r => r.getD j none) ∘
          (fun p => (rowFields p.1 p.2).map some))) = .float := by
      intro j dsel hj hnorm
      apply colKindOf_float _ (by simp [hne])
      intro c hc
      obtain ⟨p, hp, rfl⟩ := List.mem_map.mp hc
      exact ⟨printDec (dsel p), dsel p, hj p hp, parseIntOnly_printDec _,
        pyReadFloatDec_printDec _ (hnorm p hp)⟩
    rw [hobj 0 (fun p => p.1.data) (fun p _ => rfl)
        (fun p hp => by
          obtain ⟨c1, c2, c3, c4, c5, c6, c7, he, hph, _⟩ := hsafe p hp
          exact hph)]
    rw [hobj 1 (fun p => (p.2.col.getD "").data)
        (fun p _ => rfl)
        (fun p hp => by
          obtain ⟨c1, c2, c3, c4, c5, c6, c7, he, hph, hcol, _⟩ := hsafe p hp
          show csvSafeText ((p.2.col.getD "").data)
          rw [he]
          exact hcol)]
    rw [hobj 2 (fun p => (p.2.align.getD "Left").data)
        (fun p _ => rfl)
        (fun p hp => by
          obtain ⟨c1, c2, c3, c4, c5, c6, c7, he, hph, hcol, hal, _⟩ :=
            hsafe p hp
          show csvSafeText ((p.2.align.getD "Left").data)
          rw [he]
          exact hal)]
    rw [hobj 6 (fun p => (p.2.type.getD "Text").data)
        (fun p _ => rfl)
        (fun p hp => by
          obtain ⟨c1, c2, c3, c4, c5, c6, c7, he, hph, hcol, hal, hty, _⟩ :=
            hsafe p hp
          show csvSafeText ((p.2.type.getD "Text").data)
          rw [he]
          exact hty)]
    rw [hflt 3 (fun p => (p.2.dx.getD (some ⟨0, 0⟩)).getD ⟨0, 0⟩)
        (fun p hp => by
          obtain ⟨c1, c2, c3, c4, c5, c6, c7, he, _⟩ := hsafe p hp
          show some (dumpNumField p.2.dx "0".data) =
            some (printDec ((p.2.dx.getD (some ⟨0, 0⟩)).getD ⟨0, 0⟩))
          rw [he]
          rfl)
        (fun p hp => by
          obtain ⟨c1, c2, c3, c4, c5, c6, c7, he, hph, hcol, hal, hty,
            hdx, _⟩ := hsafe p hp
          show decNormalized ((p.2.dx.getD (some ⟨0, 0⟩)).getD ⟨0, 0⟩)
          rw [he]
          exact hdx)]
    rw [hflt 4 (fun p => (p.2.dy.getD (some ⟨0, 0⟩)).getD ⟨0, 0⟩)
        (fun p hp => by
          obtain ⟨c1, c2, c3, c4, c5, c6, c7, he, _⟩ := hsafe p hp
          show some (dumpNumField p.2.dy "0".data) =
            some (printDec ((p.2.dy.getD (some ⟨0, 0⟩)).getD ⟨0, 0⟩))
          rw [he]
          rfl)
        (fun p hp => by
          obtain ⟨c1, c2, c3, c4, c5, c6, c7, he, hph, hcol, hal, hty,
            hdx, hdy, _⟩ := hsafe p hp
          show decNormalized ((p.2.dy.getD (some ⟨0, 0⟩)).getD ⟨0, 0⟩)
          rw [he]
          exact hdy)]
    rw [hflt 5 (fun p => (p.2.scale.getD (some ⟨0, 0⟩)).getD ⟨0, 0⟩)
        (fun p hp => by
          obtain ⟨c1, c2, c3, c4, c5, c6, c7, he, _⟩ := hsafe p hp
          show some (dumpNumField p.2.scale "1.0".data) =
            some (printDec ((p.2.scale.getD (some ⟨0, 0⟩)).getD ⟨0, 0⟩))
          rw [he]
          rfl)
        (fun p hp => by
          obtain ⟨c1, c2, c3, c4, c5, c6, c7, he, hph, hcol, hal, hty,
            hdx, hdy, hsc, _⟩ := hsafe p hp
          show decNormalized ((p.2.scale.getD (some ⟨0, 0⟩)).getD ⟨0, 0⟩)
          rw [he]
          exact hsc)]
    rw [hflt 7 (fun p => (p.2.height_mm.getD (some ⟨0, 0⟩)).getD ⟨0, 0⟩)
        (fun p hp => by
          obtain ⟨c1, c2, c3, c4, c5, c6, c7, he, _⟩ := hsafe p hp
          show some (dumpNumField p.2.height_mm "25.0".data) =
            some (printDec ((p.2.height_mm.getD (some ⟨0, 0⟩)).getD ⟨0, 0⟩))
          rw [he]
          rfl)
        (fun p hp => by
          obtain ⟨c1, c2, c3, c4, c5, c6, c7, he, hph, hcol, hal, hty,
            hdx, hdy, hsc, hscnz, hhm, _⟩ := hsafe p hp
          show decNormalized ((p.2.height_mm.getD (some ⟨0, 0⟩)).getD ⟨0, 0⟩)
          rw [he]
          exact hhm)]
    rfl
  rw [hkinds, mapM_buildRow_ok m hsafe]
  dsimp only
  have hfm : (m.map some).filterMap id = m := by
    rw [List.filterMap_map]
    simp
  rw [hfm, if_neg (by simp [hne])]



/-! ### Keyed JSON mapping document -/

/-- A scalar JSON value in a mapping entry: a string or a number. -/
inductive JScalar where
  | str (s : List Char)
  | num (d : Dec)
deriving DecidableEq

/-- JSON string literal for text free of characters needing escapes
(the hypotheses of the round-trip theorem keep inputs in this range). -/
def jsonQuote (s : List Char) : List Char := '"' :: s ++ ['"']

/-- `json.dumps` of a float: plain decimal display (`NaN` for NaN). -/
def jsonNum (v : Option Dec) : List Char :=
  match v with
  | none => "NaN".data
  | some d => printDec d

/-- A present field renders one line; a missing key renders nothing. -/
def optField (name : List Char) (v : Option (List Char)) : List (List Char) :=
  match v with
  | none => []
  | some t => [name ++ t]

/-- Join with a multi-character separator. -/
def joinStr (sep : List Char) : List (List Char) → List Char
  | [] => []
  | [x] => x
  | x :: y :: xs => x ++ sep ++ joinStr sep (y :: xs)

/-- The `"key": value` lines of one entry, in dict insertion order. -/
def entryLines (c : MappingEntry) : List (List Char) :=
  optField "\"col\": ".data (c.col.map (fun s => jsonQuote s.data)) ++
  optField "\"align\": ".data (c.align.map (fun s => jsonQuote s.data)) ++
  optField "\"dx\": ".data (c.dx.map jsonNum) ++
  optField "\"dy\": ".data (c.dy.map jsonNum) ++
  optField "\"scale\": ".data (c.scale.map jsonNum) ++
  optField "\"type\": ".data (c.type.map (fun s => jsonQuote s.data)) ++
  optField "\"height_mm\": ".data (c.height_mm.map jsonNum)

/-- `json.dumps(entry, ensure_ascii=False, indent=2)` at nesting depth 1. -/
def dumpEntryJSON (c : MappingEntry) : List Char :=
  match entryLines c with
  | [] => "{}".data
  | ls => "\x7b\n".data ++ joinStr ",\n".data (ls.map (fun l => "    ".data ++ l)) ++
      "\n  \x7d".data

/-- `json.dumps(mapping, ensure_ascii=False, indent=2)`. -/
def dumpMappingJSON (m : List (String × MappingEntry)) : List Char :=
  match m with
  | [] => "{}".data
  | _ => "\x7b\n".data ++ joinStr ",\n".data
      (m.map (fun p => "  ".data ++ jsonQuote p.1.data ++ ": ".data ++
        dumpEntryJSON p.2)) ++ "\n\x7d".data

/-- Skip JSON whitespace. -/
def skipJsonWs (l : List Char) : List Char :=
  l.dropWhile (fun c => c = ' ' || c = '\n' || c = '\t' || c = '\r')

/-- Parse a JSON string literal (escape sequences are outside the model
and rejected, conservatively). -/
def parseJString (l : List Char) : Option (List Char × List Char) :=
  if l.head? = some '"' then
    let r := l.tail
    let content := r.takeWhile (fun c => c != '"')
    if '\\' ∈ content then none
    else
      match r.dropWhile (fun c => c != '"') with
      | _ :: rest => some (content, rest)
      | [] => none
  else none

/-- Parse a scalar: a string if it starts with a quote, else a number. -/
def parseScalar (l : List Char) : Option (JScalar × List Char) :=
  if l.head? = some '"' then
    (parseJString l).map (fun p => (.str p.1, p.2))
  else
    (parseDecCore l).map (fun p => (.num p.1, p.2))

/-- Parse the members of an object after its opening brace: repeatedly a
key string, a colon, a value, then a comma (continue) or the closing
brace (finish).  Fuel bounds the member count by the input length. -/
def parsePairsAux {α : Type} (parseVal : List Char → Option (α × List Char)) :
    Nat → List Char → Option (List (List Char × α) × List Char)
  | 0, _ => none
  | fuel + 1, l =>
    match parseJString (skipJsonWs l) with
    | none => none
    | some (key, r1) =>
      match skipJsonWs r1 with
      | ':' :: r2 =>
          match parseVal (skipJsonWs r2) with
          | none => none
          | some (v, r3) =>
            match skipJsonWs r3 with
            | ',' :: r4 =>
                (parsePairsAux parseVal fuel r4).map
                  (fun p => ((key, v) :: p.1, p.2))
            | '}' :: r4 => some ([(key, v)], r4)
            | _ => none
      | _ => none

/-- Parse a JSON object with the given member-value parser. -/
def parseObject {α : Type} (parseVal : List Char → Option (α × List Char))
    (l : List Char) : Option (List (List Char × α) × List Char) :=
  match skipJsonWs l with
  | '\x7b' :: r =>
      match skipJsonWs r with
      | '\x7d' :: rest => some ([], rest)
      | _ => parsePairsAux parseVal (r.length + 1) r
  | _ => none

/-- Recognize the canonical seven-key entry object (the shape both the
UI and the CSV loader construct, and the shape the JSON writer emits). -/
def entryOfPairs (ps : List (List Char × JScalar)) : Option MappingEntry :=
  match ps with
  | [(k1, .str c), (k2, .str a), (k3, .num dx), (k4, .num dy),
     (k5, .num sc), (k6, .str t), (k7, .num h)] =>
      if k1 = "col".data ∧ k2 = "align".data ∧ k3 = "dx".data ∧
         k4 = "dy".data ∧ k5 = "scale".data ∧ k6 = "type".data ∧
         k7 = "height_mm".data then
        some ⟨some (String.mk c), some (String.mk a), some (some dx),
          some (some dy), some (some sc), some (String.mk t), some (some h)⟩
      else none
  | _ => none

/-- Parse one entry object. -/
def parseEntryObject (l : List Char) : Option (MappingEntry × List Char) :=
  match parseObject parseScalar l with
  | none => none
  | some (pairs, rest) =>
      match entryOfPairs pairs with
      | some e => some (e, rest)
      | none => none

/-- `json.loads` of a mapping document followed by the `isinstance(dict)`
gate: the whole (whitespace-padded) input must be one object whose
values are entry objects. -/
def loadMappingJSON (doc : List Char) : Option (List (String × MappingEntry)) :=
  match parseObject parseEntryObject doc with
  | some (pairs, rest) =>
      if (skipJsonWs rest).isEmpty then
        some (pairs.map (fun p => (String.mk p.1, p.2)))
      else none
  | none => none



/-! ### Length accounting for the JSON parser -/

theorem skipJsonWs_le (l : List Char) : (skipJsonWs l).length ≤ l.length :=
  (List.dropWhile_sublist _).length_le

theorem takeWhile_dropWhile_length (p : Char → Bool) (l : List Char) :
    (l.takeWhile p).length + (l.dropWhile p).length = l.length := by
  conv_rhs => rw [← List.takeWhile_append_dropWhile (p := p) (l := l)]
  rw [List.length_append]

theorem parseJString_length {l s r : List Char}
    (h : parseJString l = some (s, r)) : r.length + 2 ≤ l.length := by
  unfold parseJString at h
  by_cases hq : l.head? = some '"'
  · rw [if_pos hq] at h
    obtain ⟨c0, tl, rfl⟩ : ∃ c0 tl, l = c0 :: tl := by
      cases l with
      | nil => simp at hq
      | cons a b => exact ⟨a, b, rfl⟩
    by_cases hb : '\\' ∈ tl.takeWhile (fun c => c != '"')
    · simp only [List.tail_cons] at h
      rw [if_pos hb] at h
      exact Option.noConfusion h
    · simp only [List.tail_cons] at h
      rw [if_neg hb] at h
      have hlen := takeWhile_dropWhile_length (fun c => c != '"') tl
      cases hdrop : tl.dropWhile (fun c => c != '"') with
      | nil =>
          rw [hdrop] at h
          exact Option.noConfusion h
      | cons x rest =>
          rw [hdrop] at h
          injection h with h'
          injection h' with h1 h2
          subst h2
          rw [hdrop] at hlen
          simp only [List.length_cons] at hlen ⊢
          omega
  · rw [if_neg hq] at h
    exact Option.noConfusion h

theorem pyFloatExpPart_length {l : List Char} {k : Int} {r : List Char}
    (h : pyFloatExpPart l = some (k, r)) : r.length ≤ l.length := by
  unfold pyFloatExpPart at h
  have hgen : ∀ (m : List Char), m.dropWhile Char.isDigit = r →
      r.length ≤ m.length := by
    intro m hm
    rw [← hm]
    exact (List.dropWhile_sublist _).length_le
  split at h <;> (dsimp only at h; split at h)
  · exact Option.noConfusion h
  · injection h with h'
    injection h' with _ h2
    have := hgen _ h2
    simp at this ⊢
    omega
  · exact Option.noConfusion h
  · injection h with h'
    injection h' with _ h2
    have := hgen _ h2
    simp at this ⊢
    omega
  · exact Option.noConfusion h
  · injection h with h'
    injection h' with _ h2
    exact hgen _ h2

theorem parseDecTail_length {neg : Bool} {ip fp r2 : List Char} {d : Dec}
    {r : List Char} (h : parseDecTail neg ip fp r2 = some (d, r)) :
    r.length ≤ r2.length := by
  unfold parseDecTail at h
  split at h
  · exact Option.noConfusion h
  · dsimp only at h
    split at h
    · rename_i c r3
      split at h
      · split at h
        · rename_i k r4 hexp
          injection h with h'
          injection h' with _ h2
          subst h2
          have := pyFloatExpPart_length hexp
          simp only [List.length_cons]
          omega
        · exact Option.noConfusion h
      · injection h with h'
        injection h' with _ h2
        subst h2
        exact le_refl _
    · injection h with h'
      injection h' with _ h2
      subst h2
      simp

theorem parseDecAfterSign_length {neg : Bool} {l1 : List Char} {d : Dec}
    {r : List Char} (h : parseDecAfterSign neg l1 = some (d, r)) :
    r.length ≤ l1.length := by
  unfold parseDecAfterSign at h
  split at h
  · rename_i rr heq
    have h1 := parseDecTail_length h
    have h2 : ('.' :: rr).length ≤ l1.length := by
      rw [← heq]
      exact (List.dropWhile_sublist _).length_le
    have h3 : (rr.dropWhile Char.isDigit).length ≤ rr.length :=
      (List.dropWhile_sublist _).length_le
    simp only [List.length_cons] at h2
    omega
  · have h1 := parseDecTail_length h
    have h2 : (l1.dropWhile Char.isDigit).length ≤ l1.length :=
      (List.dropWhile_sublist _).length_le
    omega

theorem parseDecCore_length {l : List Char} {d : Dec} {r : List Char}
    (h : parseDecCore l = some (d, r)) : r.length ≤ l.length := by
  have hsgn : (decSign l).2.length ≤ l.length := by
    unfold decSign
    cases l with
    | nil => simp
    | cons c tl =>
        by_cases h1 : c = '-'
        · simp [h1]
        · by_cases h2 : c = '+'
          · simp [h1, h2]
          · simp [h1, h2]
  unfold parseDecCore at h
  exact le_trans (parseDecAfterSign_length h) hsgn


/-! ### JSON round trip -/

theorem skipJsonWs_cons_ws {c : Char} (l : List Char)
    (h : (c = ' ' || c = '\n' || c = '\t' || c = '\r') = true) :
    skipJsonWs (c :: l) = skipJsonWs l := by
  unfold skipJsonWs
  rw [List.dropWhile_cons, if_pos h]

theorem skipJsonWs_not_ws {l : List Char}
    (h : ∀ c, l.head? = some c →
      (c = ' ' || c = '\n' || c = '\t' || c = '\r') = false) :
    skipJsonWs l = l := by
  unfold skipJsonWs
  cases l with
  | nil => rfl
  | cons c r =>
      rw [List.dropWhile_cons, if_neg]
      simp [h c rfl]

theorem parseJString_quote {s : List Char} (hq : '"' ∉ s) (hb : '\\' ∉ s)
    (rest : List Char) :
    parseJString (jsonQuote s ++ rest) = some (s, rest) := by
  have hform : jsonQuote s ++ rest = '"' :: (s ++ '"' :: rest) := by
    unfold jsonQuote
    simp
  have hsplit := takeWhile_append_of (fun c => c != '"') s ('"' :: rest)
    (fun c hc => by
      simp only [bne_iff_ne, ne_eq, decide_eq_true_eq]
      intro he
      subst he
      exact hq hc)
    (fun c hc => by
      simp only [List.head?_cons, Option.some.injEq] at hc
      subst hc
      simp)
  rw [hform]
  unfold parseJString
  have hcond : ('"' :: (s ++ '"' :: rest)).head? = some '"' := rfl
  rw [if_pos hcond]
  dsimp only [List.tail_cons]
  rw [hsplit.1, hsplit.2, if_neg hb]

theorem parseScalar_str {s : List Char} (hq : '"' ∉ s) (hb : '\\' ∉ s)
    (rest : List Char) :
    parseScalar (jsonQuote s ++ rest) = some (.str s, rest) := by
  unfold parseScalar
  have hh : (jsonQuote s ++ rest).head? = some '"' := by
    unfold jsonQuote
    simp
  rw [if_pos hh, parseJString_quote hq hb rest]
  rfl

theorem parseScalar_num (d : Dec) (hn : decNormalized d) (rest : List Char)
    (hrest : ∀ c, rest.head? = some c →
      (c.isDigit || c = 'e' || c = 'E') = false) :
    parseScalar (printDec d ++ rest) = some (.num d, rest) := by
  unfold parseScalar
  have hh : ¬ (printDec d ++ rest).head? = some '"' := by
    intro he
    cases hpd : printDec d with
    | nil => exact printDec_ne_nil d hpd
    | cons c cs =>
        have hc := printDec_chars d c (by rw [hpd]; simp)
        rw [hpd] at he
        simp only [List.cons_append, List.head?_cons, Option.some.injEq] at he
        subst he
        exact absurd hc (by decide)
  rw [if_neg hh, parseDecCore_printDec d hn rest hrest]
  rfl

theorem parsePairsAux_cons {α : Type}
    (pv : List Char → Option (α × List Char)) {fuel : Nat} (hf : 1 ≤ fuel)
    {l key r1 r2 r3 r4 : List Char} {v : α}
    (hk : parseJString (skipJsonWs l) = some (key, r1))
    (hc : skipJsonWs r1 = ':' :: r2)
    (hv : pv (skipJsonWs r2) = some (v, r3))
    (hd : skipJsonWs r3 = ',' :: r4) :
    parsePairsAux pv fuel l =
      (parsePairsAux pv (fuel - 1) r4).map (fun p => ((key, v) :: p.1, p.2)) := by
  obtain ⟨f, rfl⟩ : ∃ f, fuel = f + 1 := ⟨fuel - 1, by omega⟩
  simp only [Nat.add_sub_cancel, parsePairsAux, hk, hc, hv, hd]

theorem parsePairsAux_last {α : Type}
    (pv : List Char → Option (α × List Char)) {fuel : Nat} (hf : 1 ≤ fuel)
    {l key r1 r2 r3 r4 : List Char} {v : α}
    (hk : parseJString (skipJsonWs l) = some (key, r1))
    (hc : skipJsonWs r1 = ':' :: r2)
    (hv : pv (skipJsonWs r2) = some (v, r3))
    (hd : skipJsonWs r3 = '\x7d' :: r4) :
    parsePairsAux pv fuel l = some ([(key, v)], r4) := by
  obtain ⟨f, rfl⟩ : ∃ f, fuel = f + 1 := ⟨fuel - 1, by omega⟩
  simp only [parsePairsAux, hk, hc, hv, hd]

/-- JSON whitespace characters (the set `skipJsonWs` consumes). -/
def jsonWsChar (c : Char) : Bool := c = ' ' || c = '\n' || c = '\t' || c = '\r'

theorem skipJsonWs_ws_append {w : List Char}
    (hw : ∀ c ∈ w, jsonWsChar c = true) (l : List Char) :
    skipJsonWs (w ++ l) = skipJsonWs l := by
  induction w with
  | nil => rfl
  | cons c r ih =>
      rw [List.cons_append, skipJsonWs_cons_ws _ (hw c (by simp)),
        ih (fun c hc => hw c (by simp [hc]))]

/-- One `"key": value` member line as the writer emits it, with its
indentation. -/
def jfLine {α : Type} (ws1 : List Char) (df : α → List Char)
    (kv : List Char × α) : List Char :=
  ws1 ++ jsonQuote kv.1 ++ ':' :: ' ' :: df kv.2

theorem parsePairsAux_items {α : Type}
    (pv : List Char → Option (α × List Char)) (df : α → List Char)
    (ws1 : List Char) (hws1 : ∀ c ∈ ws1, jsonWsChar c = true)
    (wsr : List Char) (hwsr : ∀ c ∈ wsr, jsonWsChar c = true) :
    ∀ (items : List (List Char × α)) (w : List Char),
      (∀ c ∈ w, jsonWsChar c = true) →
      ∀ (fuel : Nat) (tail : List Char),
      items ≠ [] → items.length ≤ fuel →
      (∀ kv ∈ items, '"' ∉ kv.1 ∧ '\\' ∉ kv.1) →
      (∀ kv ∈ items, ∀ c, (df kv.2).head? = some c → jsonWsChar c = false) →
      (∀ kv ∈ items, df kv.2 ≠ []) →
      (∀ kv ∈ items, ∀ rest : List Char,
        rest.head? = some ',' ∨ rest.head? = some '\n' →
        pv (df kv.2 ++ rest) = some (kv.2, rest)) →
      parsePairsAux pv fuel
        (w ++ joinStr (',' :: '\n' :: []) (items.map (jfLine ws1 df)) ++
          '\n' :: (wsr ++ '\x7d' :: tail)) = some (items, tail)
  | [], _, _, _, _, hne, _, _, _, _, _ => absurd rfl hne
  | kv :: tl, w, hw, fuel, tail, _, hfuel, hkeys, hheads, hdne, hpv => by
    have hq := (hkeys kv (by simp)).1
    have hb := (hkeys kv (by simp)).2
    have hwws : ∀ c ∈ w ++ ws1, jsonWsChar c = true := by
      intro c hc
      rw [List.mem_append] at hc
      rcases hc with hc | hc
      · exact hw c hc
      · exact hws1 c hc
    have hdf : ∀ (X : List Char) (c : Char), (df kv.2 ++ X).head? = some c →
        jsonWsChar c = false := by
      intro X c hc
      cases hdv : df kv.2 with
      | nil => exact absurd hdv (hdne kv (by simp))
      | cons d ds =>
          rw [hdv] at hc
          simp only [List.cons_append, List.head?_cons, Option.some.injEq] at hc
          subst hc
          exact hheads kv (by simp) _ (by rw [hdv]; rfl)
    have hcolon : ∀ (X : List Char), skipJsonWs (':' :: X) = ':' :: X := by
      intro X
      apply skipJsonWs_not_ws
      intro c hc
      simp only [List.head?_cons, Option.some.injEq] at hc
      subst hc
      decide
    have hvstep : ∀ (X : List Char), (X.head? = some ',' ∨ X.head? = some '\n') →
        pv (skipJsonWs (' ' :: (df kv.2 ++ X))) = some (kv.2, X) := by
      intro X hX
      rw [skipJsonWs_cons_ws _ (by decide), skipJsonWs_not_ws (hdf X)]
      exact hpv kv (by simp) X hX
    cases tl with
    | nil =>
        have hin : w ++ joinStr (',' :: '\n' :: [])
              ([kv].map (jfLine ws1 df)) ++ '\n' :: (wsr ++ '\x7d' :: tail) =
            (w ++ ws1) ++ (jsonQuote kv.1 ++ ':' :: ' ' ::
              (df kv.2 ++ '\n' :: (wsr ++ '\x7d' :: tail))) := by
          simp only [List.map_cons, List.map_nil, joinStr, jfLine]
          simp [List.append_assoc]
        rw [hin]
        have hk : parseJString (skipJsonWs ((w ++ ws1) ++ (jsonQuote kv.1 ++
            ':' :: ' ' :: (df kv.2 ++ '\n' :: (wsr ++ '\x7d' :: tail))))) =
            some (kv.1, ':' :: ' ' ::
              (df kv.2 ++ '\n' :: (wsr ++ '\x7d' :: tail))) := by
          rw [skipJsonWs_ws_append hwws, skipJsonWs_not_ws]
          · exact parseJString_quote hq hb _
          · intro c hc
            unfold jsonQuote at hc
            simp only [List.cons_append, List.head?_cons,
              Option.some.injEq] at hc
            subst hc
            decide
        have hd : skipJsonWs ('\n' :: (wsr ++ '\x7d' :: tail)) =
            '\x7d' :: tail := by
          rw [skipJsonWs_cons_ws _ (by decide), skipJsonWs_ws_append hwsr,
            skipJsonWs_not_ws]
          intro c hc
          simp only [List.head?_cons, Option.some.injEq] at hc
          subst hc
          decide
        exact parsePairsAux_last pv (by simp at hfuel; omega) hk (hcolon _)
          (hvstep _ (Or.inr rfl)) hd
    | cons kv2 tl2 =>
        have hin : w ++ joinStr (',' :: '\n' :: [])
              ((kv :: kv2 :: tl2).map (jfLine ws1 df)) ++
              '\n' :: (wsr ++ '\x7d' :: tail) =
            (w ++ ws1) ++ (jsonQuote kv.1 ++ ':' :: ' ' ::
              (df kv.2 ++ ',' :: '\n' ::
                (joinStr (',' :: '\n' :: []) ((kv2 :: tl2).map (jfLine ws1 df))
                  ++ '\n' :: (wsr ++ '\x7d' :: tail)))) := by
          simp only [List.map_cons, joinStr, jfLine]
          simp [List.append_assoc]
        rw [hin]
        have hk : parseJString (skipJsonWs ((w ++ ws1) ++ (jsonQuote kv.1 ++
            ':' :: ' ' :: (df kv.2 ++ ',' :: '\n' ::
              (joinStr (',' :: '\n' :: []) ((kv2 :: tl2).map (jfLine ws1 df))
                ++ '\n' :: (wsr ++ '\x7d' :: tail)))))) =
            some (kv.1, ':' :: ' ' :: (df kv.2 ++ ',' :: '\n' ::
              (joinStr (',' :: '\n' :: []) ((kv2 :: tl2).map (jfLine ws1 df))
                ++ '\n' :: (wsr ++ '\x7d' :: tail)))) := by
          rw [skipJsonWs_ws_append hwws, skipJsonWs_not_ws]
          · exact parseJString_quote hq hb _
          · intro c hc
            unfold jsonQuote at hc
            simp only [List.cons_append, List.head?_cons,
              Option.some.injEq] at hc
            subst hc
            decide
        have hd : skipJsonWs (',' :: '\n' ::
            (joinStr (',' :: '\n' :: []) ((kv2 :: tl2).map (jfLine ws1 df))
              ++ '\n' :: (wsr ++ '\x7d' :: tail))) =
            ',' :: ('\n' ::
              (joinStr (',' :: '\n' :: []) ((kv2 :: tl2).map (jfLine ws1 df))
                ++ '\n' :: (wsr ++ '\x7d' :: tail))) := by
          apply skipJsonWs_not_ws
          intro c hc
          simp only [List.head?_cons, Option.some.injEq] at hc
          subst hc
          decide
        rw [parsePairsAux_cons pv (by simp at hfuel; omega) hk (hcolon _)
          (hvstep _ (Or.inl rfl)) hd]
        have hih := parsePairsAux_items pv df ws1 hws1 wsr hwsr (kv2 :: tl2)
          ['\n'] (by intro c hc; simp at hc; subst hc; decide) (fuel - 1) tail
          (by simp) (by simp at hfuel ⊢; omega)
          (fun x hx => hkeys x (by simp [hx]))
          (fun x hx => hheads x (by simp [hx]))
          (fun x hx => hdne x (by simp [hx]))
          (fun x hx => hpv x (by simp [hx]))
        rw [show ('\n' :: (joinStr (',' :: '\n' :: [])
            ((kv2 :: tl2).map (jfLine ws1 df)) ++
            '\n' :: (wsr ++ '\x7d' :: tail))) =
          ['\n'] ++ joinStr (',' :: '\n' :: [])
            ((kv2 :: tl2).map (jfLine ws1 df)) ++
            '\n' :: (wsr ++ '\x7d' :: tail) by simp]
        rw [hih]
        rfl

theorem joinStr_len_ge {α : Type} (f : α → List Char) :
    ∀ (l : List α), l.length ≤ (joinStr (',' :: '\n' :: []) (l.map f)).length + 1
  | [] => by simp [joinStr]
  | [x] => by simp [joinStr]
  | x :: y :: tl => by
      have ih := joinStr_len_ge f (y :: tl)
      simp only [List.map_cons, joinStr, List.length_append,
        List.length_cons] at ih ⊢
      omega

theorem parseObject_items {α : Type}
    (pv : List Char → Option (α × List Char)) (df : α → List Char)
    (ws1 : List Char) (hws1 : ∀ c ∈ ws1, jsonWsChar c = true)
    (wsr : List Char) (hwsr : ∀ c ∈ wsr, jsonWsChar c = true)
    (items : List (List Char × α)) (tail : List Char) (hne : items ≠ [])
    (hkeys : ∀ kv ∈ items, '"' ∉ kv.1 ∧ '\\' ∉ kv.1)
    (hheads : ∀ kv ∈ items, ∀ c, (df kv.2).head? = some c →
      jsonWsChar c = false)
    (hdne : ∀ kv ∈ items, df kv.2 ≠ [])
    (hpv : ∀ kv ∈ items, ∀ rest : List Char,
      rest.head? = some ',' ∨ rest.head? = some '\n' →
      pv (df kv.2 ++ rest) = some (kv.2, rest)) :
    parseObject pv
      ('\x7b' :: '\n' :: (joinStr (',' :: '\n' :: [])
        (items.map (jfLine ws1 df)) ++ '\n' :: (wsr ++ '\x7d' :: tail))) =
      some (items, tail) := by
  cases items with
  | nil => exact absurd rfl hne
  | cons kv tl =>
      have hbody : ∃ rest0, joinStr (',' :: '\n' :: [])
          ((kv :: tl).map (jfLine ws1 df)) =
          ws1 ++ (jsonQuote kv.1 ++ rest0) := by
        cases tl with
        | nil =>
            refine ⟨':' :: ' ' :: df kv.2, ?_⟩
            simp [joinStr, jfLine, List.append_assoc]
        | cons kv2 tl2 =>
            refine ⟨':' :: ' ' :: (df kv.2 ++ ',' :: '\n' ::
              joinStr (',' :: '\n' :: []) ((kv2 :: tl2).map (jfLine ws1 df))), ?_⟩
            simp [joinStr, jfLine, List.append_assoc]
      obtain ⟨rest0, hb⟩ := hbody
      have hfull : joinStr (',' :: '\n' :: []) ((kv :: tl).map (jfLine ws1 df))
          ++ '\n' :: (wsr ++ '\x7d' :: tail) =
          ws1 ++ ('"' :: (kv.1 ++ '"' ::
            (rest0 ++ '\n' :: (wsr ++ '\x7d' :: tail)))) := by
        rw [hb]
        unfold jsonQuote
        simp [List.append_assoc]
      have h1 : skipJsonWs ('\x7b' :: '\n' :: (joinStr (',' :: '\n' :: [])
          ((kv :: tl).map (jfLine ws1 df)) ++
          '\n' :: (wsr ++ '\x7d' :: tail))) =
          '\x7b' :: '\n' :: (joinStr (',' :: '\n' :: [])
          ((kv :: tl).map (jfLine ws1 df)) ++
          '\n' :: (wsr ++ '\x7d' :: tail)) := by
        apply skipJsonWs_not_ws
        intro c hc
        simp only [List.head?_cons, Option.some.injEq] at hc
        subst hc
        decide
      have h2 : skipJsonWs ('\n' :: (joinStr (',' :: '\n' :: [])
          ((kv :: tl).map (jfLine ws1 df)) ++
          '\n' :: (wsr ++ '\x7d' :: tail))) =
          '"' :: (kv.1 ++ '"' :: (rest0 ++ '\n' :: (wsr ++ '\x7d' :: tail))) := by
        rw [skipJsonWs_cons_ws _ (by decide), hfull,
          skipJsonWs_ws_append hws1, skipJsonWs_not_ws]
        intro c hc
        simp only [List.head?_cons, Option.some.injEq] at hc
        subst hc
        decide
      have h3 : parsePairsAux pv ((('\n' :: (joinStr (',' :: '\n' :: [])
          ((kv :: tl).map (jfLine ws1 df)) ++
          '\n' :: (wsr ++ '\x7d' :: tail)))).length + 1)
          ('\n' :: (joinStr (',' :: '\n' :: [])
          ((kv :: tl).map (jfLine ws1 df)) ++
          '\n' :: (wsr ++ '\x7d' :: tail))) = some (kv :: tl, tail) := by
        have hlen := joinStr_len_ge (jfLine ws1 df) (kv :: tl)
        have := parsePairsAux_items pv df ws1 hws1 wsr hwsr (kv :: tl)
          ['\n'] (by intro c hc; simp at hc; subst hc; decide)
          (('\n' :: (joinStr (',' :: '\n' :: [])
            ((kv :: tl).map (jfLine ws1 df)) ++
            '\n' :: (wsr ++ '\x7d' :: tail))).length + 1) tail
          (by simp)
          (by simp only [List.length_cons, List.length_append,
                List.length_map] at hlen ⊢; omega)
          hkeys hheads hdne hpv
        rw [← this]
        simp [List.append_assoc]
      simp only [parseObject, h1, h2, h3]
      split
      · rename_i rest heq
        injection heq with h4 h5
        exact absurd h4 (by decide)
      · rfl

/-- How the writer renders one member value of an entry object. -/
def scalarDump : JScalar → List Char
  | .str s => jsonQuote s
  | .num d => printDec d

/-- The seven members of an entry object, in dict insertion order. -/
def entryItems (c a t : String) (dx dy sc h : Dec) :
    List (List Char × JScalar) :=
  [("col".data, .str c.data), ("align".data, .str a.data),
   ("dx".data, .num dx), ("dy".data, .num dy), ("scale".data, .num sc),
   ("type".data, .str t.data), ("height_mm".data, .num h)]

theorem dumpEntryJSON_eq (c a t : String) (dx dy sc h : Dec)
    (rest : List Char) :
    dumpEntryJSON ⟨some c, some a, some (some dx), some (some dy),
      some (some sc), some t, some (some h)⟩ ++ rest =
    '\x7b' :: '\n' :: (joinStr (',' :: '\n' :: [])
      ((entryItems c a t dx dy sc h).map (jfLine ("    ".data) scalarDump)) ++
      '\n' :: ((' ' :: ' ' :: []) ++ '\x7d' :: rest)) := by
  simp only [dumpEntryJSON, entryLines, optField, Option.map_some', jsonNum,
    entryItems, jfLine, scalarDump, jsonQuote, List.map_cons, List.map_nil,
    joinStr, List.cons_append, List.nil_append, List.append_nil,
    List.append_assoc]

theorem printedChar_not_ws {ch : Char}
    (hp : (ch.isDigit || ch = '-' || ch = '.') = true) :
    jsonWsChar ch = false := by
  by_contra hws
  rw [Bool.not_eq_false] at hws
  unfold jsonWsChar at hws
  simp only [Bool.or_eq_true, decide_eq_true_eq] at hws
  rcases hws with ((h1 | h1) | h1) | h1 <;> subst h1 <;>
    exact absurd hp (by decide)

theorem entryOfPairs_items (c a t : String) (dx dy sc h : Dec) :
    entryOfPairs (entryItems c a t dx dy sc h) =
    some ⟨some c, some a, some (some dx), some (some dy), some (some sc),
      some t, some (some h)⟩ := by
  simp only [entryOfPairs, entryItems]
  split
  · rfl
  · rename_i hcond
    exact absurd (by decide) hcond

theorem parseEntryObject_dump (c a t : String) (dx dy sc h : Dec)
    (hc : '"' ∉ c.data ∧ '\\' ∉ c.data) (ha : '"' ∉ a.data ∧ '\\' ∉ a.data)
    (ht : '"' ∉ t.data ∧ '\\' ∉ t.data)
    (hdx : decNormalized dx) (hdy : decNormalized dy)
    (hsc : decNormalized sc) (hh : decNormalized h)
    (rest : List Char)
    (hrest : rest.head? = some ',' ∨ rest.head? = some '\n') :
    parseEntryObject (dumpEntryJSON ⟨some c, some a, some (some dx),
      some (some dy), some (some sc), some t, some (some h)⟩ ++ rest) =
    some (⟨some c, some a, some (some dx), some (some dy), some (some sc),
      some t, some (some h)⟩, rest) := by
  have hmem : ∀ kv ∈ entryItems c a t dx dy sc h,
      (kv.2 = .str c.data ∨ kv.2 = .str a.data ∨ kv.2 = .str t.data ∨
       kv.2 = .num dx ∨ kv.2 = .num dy ∨ kv.2 = .num sc ∨ kv.2 = .num h) := by
    intro kv hkv
    simp only [entryItems, List.mem_cons, List.not_mem_nil, or_false] at hkv
    rcases hkv with rfl | rfl | rfl | rfl | rfl | rfl | rfl <;> simp
  have hobj := parseObject_items parseScalar scalarDump ("    ".data)
    (by decide) (' ' :: ' ' :: []) (by decide)
    (entryItems c a t dx dy sc h) rest (by simp [entryItems])
    (by
      intro kv hkv
      simp only [entryItems, List.mem_cons, List.not_mem_nil,
        or_false] at hkv
      rcases hkv with rfl | rfl | rfl | rfl | rfl | rfl | rfl <;>
        (dsimp only; decide))
    (by
      intro kv hkv ch hch
      rcases hmem kv hkv with hv | hv | hv | hv | hv | hv | hv <;>
        rw [hv] at hch
      · unfold scalarDump jsonQuote at hch
        simp only [List.cons_append, List.head?_cons,
          Option.some.injEq] at hch
        subst hch
        decide
      · unfold scalarDump jsonQuote at hch
        simp only [List.cons_append, List.head?_cons,
          Option.some.injEq] at hch
        subst hch
        decide
      · unfold scalarDump jsonQuote at hch
        simp only [List.cons_append, List.head?_cons,
          Option.some.injEq] at hch
        subst hch
        decide
      all_goals
        (simp only [scalarDump] at hch
         exact printedChar_not_ws
           (printDec_chars _ ch (List.mem_of_mem_head? hch)))
    )
    (by
      intro kv hkv
      rcases hmem kv hkv with hv | hv | hv | hv | hv | hv | hv <;> rw [hv]
      · exact fun hnil => List.cons_ne_nil _ _ hnil
      · exact fun hnil => List.cons_ne_nil _ _ hnil
      · exact fun hnil => List.cons_ne_nil _ _ hnil
      all_goals exact printDec_ne_nil _)
    (by
      intro kv hkv rest2 hrest2
      have hnum : ∀ ch, rest2.head? = some ch →
          (ch.isDigit || ch = 'e' || ch = 'E') = false := by
        intro ch hch
        rcases hrest2 with hr | hr <;> rw [hr] at hch <;>
          (injection hch with hch; subst hch; decide)
      rcases hmem kv hkv with hv | hv | hv | hv | hv | hv | hv <;> rw [hv]
      · exact parseScalar_str hc.1 hc.2 rest2
      · exact parseScalar_str ha.1 ha.2 rest2
      · exact parseScalar_str ht.1 ht.2 rest2
      · exact parseScalar_num dx hdx rest2 hnum
      · exact parseScalar_num dy hdy rest2 hnum
      · exact parseScalar_num sc hsc rest2 hnum
      · exact parseScalar_num h hh rest2 hnum)
  simp only [parseEntryObject, dumpEntryJSON_eq c a t dx dy sc h rest, hobj,
    entryOfPairs_items]

/-- The restriction on one mapping entry under which the JSON form
round-trips: all seven fields present, text free of quotes and
backslashes (no escape sequences needed), numeric values finite
normalized decimals. -/
def jsonEntryGood (p : String × MappingEntry) : Prop :=
  '"' ∉ p.1.data ∧ '\\' ∉ p.1.data ∧
  ∃ c a t dx dy sc h,
    p.2 = ⟨some c, some a, some (some dx), some (some dy), some (some sc),
      some t, some (some h)⟩ ∧
    ('"' ∉ c.data ∧ '\\' ∉ c.data) ∧ ('"' ∉ a.data ∧ '\\' ∉ a.data) ∧
    ('"' ∉ t.data ∧ '\\' ∉ t.data) ∧
    decNormalized dx ∧ decNormalized dy ∧ decNormalized sc ∧ decNormalized h

theorem dumpEntryJSON_head (e : MappingEntry) :
    ∃ z, dumpEntryJSON e = '\x7b' :: z := by
  unfold dumpEntryJSON
  split
  · exact ⟨'\x7d' :: [], by decide⟩
  · have h : "\x7b\n".data = '\x7b' :: '\n' :: [] := by decide
    rw [h]
    exact ⟨'\n' :: ([] ++ joinStr ",\n".data
      ((entryLines e).map (fun l => "    ".data ++ l)) ++ "\n  \x7d".data),
      by simp⟩

theorem dumpMappingJSON_eq (q : String × MappingEntry)
    (qs : List (String × MappingEntry)) :
    dumpMappingJSON (q :: qs) =
    '\x7b' :: '\n' :: (joinStr (',' :: '\n' :: [])
      (((q :: qs).map (fun p => (p.1.data, p.2))).map
        (jfLine ("  ".data) dumpEntryJSON)) ++
      '\n' :: ([] ++ '\x7d' :: [])) := by
  have h1 : ": ".data = ':' :: ' ' :: [] := by decide
  have h2 : "\x7b\n".data = '\x7b' :: '\n' :: [] := by decide
  have h3 : ",\n".data = ',' :: '\n' :: [] := by decide
  have h4 : "\n\x7d".data = '\n' :: '\x7d' :: [] := by decide
  have hfun : (fun p : String × MappingEntry => "  ".data ++
      jsonQuote p.1.data ++ ": ".data ++ dumpEntryJSON p.2) =
      ((jfLine ("  ".data) dumpEntryJSON) ∘ (fun p => (p.1.data, p.2))) := by
    funext p
    simp [jfLine, h1, List.append_assoc]
  simp only [dumpMappingJSON, h2, h3, h4, hfun, ← List.map_map]
  simp [List.append_assoc]

theorem json_roundtrip (m : List (String × MappingEntry)) (hne : m ≠ [])
    (hgood : ∀ p ∈ m, jsonEntryGood p) :
    loadMappingJSON (dumpMappingJSON m) = some m := by
  cases m with
  | nil => exact absurd rfl hne
  | cons q qs =>
      have hobj := parseObject_items parseEntryObject dumpEntryJSON
        ("  ".data) (by decide) [] (by decide)
        ((q :: qs).map (fun p => (p.1.data, p.2))) [] (by simp)
        (by
          intro kv hkv
          obtain ⟨p, hp, rfl⟩ := List.mem_map.mp hkv
          exact ⟨(hgood p hp).1, (hgood p hp).2.1⟩)
        (by
          intro kv hkv ch hch
          obtain ⟨z, hz⟩ := dumpEntryJSON_head kv.2
          rw [hz] at hch
          simp only [List.head?_cons, Option.some.injEq] at hch
          subst hch
          decide)
        (by
          intro kv hkv
          obtain ⟨z, hz⟩ := dumpEntryJSON_head kv.2
          rw [hz]
          exact List.cons_ne_nil _ _)
        (by
          intro kv hkv rest hrest
          obtain ⟨p, hp, rfl⟩ := List.mem_map.mp hkv
          obtain ⟨_, _, c, a, t, dx, dy, sc, h, hpe, hc, ha, ht,
            hdx, hdy, hsc, hh⟩ := hgood p hp
          dsimp only
          rw [hpe]
          exact parseEntryObject_dump c a t dx dy sc h hc ha ht
            hdx hdy hsc hh rest hrest)
      rw [dumpMappingJSON_eq q qs]
      unfold loadMappingJSON
      rw [hobj]
      have hid : ((fun pp : List Char × MappingEntry =>
          (String.mk pp.1, pp.2)) ∘
          (fun p : String × MappingEntry => (p.1.data, p.2))) = id :=
        funext (fun p => rfl)
      simp only [skipJsonWs, List.dropWhile_nil, List.isEmpty_nil, if_pos,
        List.map_map, hid, List.map_id]

/-- C9: The spec claims the mapping round-trips through both the tabular
(CSV) and the keyed JSON documents for every mapping configuration.  This
is false as stated: the writer never quotes or escapes fields, so a
column name containing a comma produces a 9-field CSV row.  Pandas does
not reject it: the first column becomes an implicit index, every field
shifts one place left, and the restore loop installs a different mapping
— keyed by the first half of the column name, with the second half as
its data column — instead of the original. -/
theorem mapping_roundtrip_counterexample :
    loadMappingCSV (dumpMappingCSV
      [("sku", ⟨some "x,y", some "middle", some (some ⟨0, 0⟩),
        some (some ⟨0, 0⟩), some (some ⟨1, 0⟩), some "Text",
        some (some ⟨25, 0⟩)⟩)]) =
      some [("x", ⟨some "y", some "middle", some (some ⟨0, 0⟩),
        some (some ⟨0, 0⟩), some (some ⟨1, 0⟩), some "Text",
        some (some ⟨25, 0⟩)⟩)] ∧
    ([("x", ⟨some "y", some "middle", some (some ⟨0, 0⟩),
        some (some ⟨0, 0⟩), some (some ⟨1, 0⟩), some "Text",
        some (some ⟨25, 0⟩)⟩)] :
      List (String × MappingEntry)) ≠
    [("sku", ⟨some "x,y", some "middle", some (some ⟨0, 0⟩),
        some (some ⟨0, 0⟩), some (some ⟨1, 0⟩), some "Text",
        some (some ⟨25, 0⟩)⟩)] := by
  decide

/-- C9 (amended): for a nonempty mapping whose entries have all seven
fields populated, whose text fields are free of separators (commas,
newlines), JSON metacharacters (quotes, backslashes), and are not
parseable as numbers, booleans or pandas NA literals, and whose numeric
fields are finite normalized decimals with nonzero scale and height,
serializing to the tabular document and loading it back is the identity,
and likewise for the keyed JSON document. -/
theorem mapping_roundtrip_amended (m : List (String × MappingEntry))
    (hne : m ≠ [])
    (hcsv : ∀ p ∈ m, entryShape p)
    (hjson : ∀ p ∈ m, jsonEntryGood p) :
    loadMappingCSV (dumpMappingCSV m) = some m ∧
    loadMappingJSON (dumpMappingJSON m) = some m :=
  ⟨csv_roundtrip m hne hcsv, json_roundtrip m hne hjson⟩

/-- Witness for the amended C9 round trip at a concrete one-entry
mapping. -/
theorem mapping_roundtrip_amended_witness :
    loadMappingCSV (dumpMappingCSV
      [("sku", ⟨some "EAN", some "middle", some (some ⟨3, 0⟩),
        some (some ⟨-4, 0⟩), some (some ⟨15, 1⟩), some "Barcode (EAN-13)",
        some (some ⟨25, 0⟩)⟩)]) =
      some [("sku", ⟨some "EAN", some "middle", some (some ⟨3, 0⟩),
        some (some ⟨-4, 0⟩), some (some ⟨15, 1⟩), some "Barcode (EAN-13)",
        some (some ⟨25, 0⟩)⟩)] ∧
    loadMappingJSON (dumpMappingJSON
      [("sku", ⟨some "EAN", some "middle", some (some ⟨3, 0⟩),
        some (some ⟨-4, 0⟩), some (some ⟨15, 1⟩), some "Barcode (EAN-13)",
        some (some ⟨25, 0⟩)⟩)]) =
      some [("sku", ⟨some "EAN", some "middle", some (some ⟨3, 0⟩),
        some (some ⟨-4, 0⟩), some (some ⟨15, 1⟩), some "Barcode (EAN-13)",
        some (some ⟨25, 0⟩)⟩)] :=
  mapping_roundtrip_amended
    [("sku", ⟨some "EAN", some "middle", some (some ⟨3, 0⟩),
      some (some ⟨-4, 0⟩), some (some ⟨15, 1⟩), some "Barcode (EAN-13)",
      some (some ⟨25, 0⟩)⟩)]
    (by decide)
    (by
      intro p hp
      simp only [List.mem_cons, List.not_mem_nil, or_false] at hp
      subst hp
      refine ⟨"EAN", "middle", "Barcode (EAN-13)", ⟨3, 0⟩, ⟨-4, 0⟩, ⟨15, 1⟩,
        ⟨25, 0⟩, rfl, ?_, ?_, ?_, ?_, by decide, by decide, by decide,
        by decide, by decide, by decide⟩ <;>
        exact ⟨by decide, by decide, by decide, by decide, by decide,
          by decide, by decide⟩)
    (by
      intro p hp
      simp only [List.mem_cons, List.not_mem_nil, or_false] at hp
      subst hp
      exact ⟨by decide, by decide, "EAN", "middle", "Barcode (EAN-13)",
        ⟨3, 0⟩, ⟨-4, 0⟩, ⟨15, 1⟩, ⟨25, 0⟩, rfl, by decide, by decide,
        by decide, by decide, by decide, by decide, by decide⟩)


end Packdeal
